import Mathlib

/-
Verification development for the PredatorPreyEnv grid simulation
(main.py of the Predator-Prey-Ecosystem-MARL repository).

The Python environment is shallowly embedded:
* Python object references are modelled by a heap (Ref to AgentData);
  grid cells hold such refs, which keeps the aliasing between
  self.grid and self.agents faithful.
* random.randint draws are modelled by an explicit stream of pairs
  (the value is reduced modulo the grid dimension, so every stream
  yields in-range draws).
* The unbounded while-True placement loops of the source are modelled
  with an explicit fuel parameter; none means the loop did not finish
  within the given number of attempts.
* Python floats (health, spawn probabilities) are modelled as
  rationals; Python dicts are modelled as association lists with
  first-key-wins position and last-value-wins update.
-/

namespace PredatorPrey

/-- Agent roles.  In the source the role is the string "predator" or
"prey" and is tested with substring containment; every constructed
agent has exactly one of the two strings, so a two-value type is the
faithful image. -/
inductive Role
  | predator
  | prey
deriving DecidableEq

/-- Modelled from the spec: the Agent class lives in agent.py, which is
not part of src/.  Per the spec data model an agent carries its id
string, role, position and float health; the commented-out registry
in main.py line 40 records the initial health as 1. -/
structure AgentData where
  id : String
  role : Role
  pos : Nat × Nat
  health : ℚ
deriving DecidableEq

/-- Heap references standing for Python object identity. -/
abbrev Ref := Nat

/-- One cell of the numpy object grid: 0, -1, or an Agent reference. -/
inductive Cell
  | empty
  | wall
  | agent (r : Ref)
deriving DecidableEq

/-- The mutable state of a PredatorPreyEnv instance. -/
structure Env where
  gridSize : Nat × Nat
  numPredators : Nat
  numPrey : Nat
  numWalls : Nat
  predatorScope : Nat
  healthGained : ℚ
  maxNumPredators : Nat
  maxNumPreys : Nat
  agents : List Ref
  walls : List (Nat × Nat)
  grid : Nat × Nat → Cell
  heap : Ref → AgentData
  nextRef : Nat

/-- PredatorPreyEnv.__init__ : empty grid, no agents, caps of 10000. -/
def mkEnv (gridSize : Nat × Nat) (numPredators numPrey numWalls predatorScope : Nat)
    (healthGained : ℚ) : Env :=
  { gridSize := gridSize
    numPredators := numPredators
    numPrey := numPrey
    numWalls := numWalls
    predatorScope := predatorScope
    healthGained := healthGained
    maxNumPredators := 10000
    maxNumPreys := 10000
    agents := []
    walls := []
    grid := fun _ => Cell.empty
    heap := fun _ => ⟨"", Role.prey, (0, 0), 0⟩
    nextRef := 0 }

/-- The stream of random.randint pairs; idx is the position of the
next draw. -/
structure Rng where
  seq : Nat → Nat × Nat
  idx : Nat

/-- One attempt draws an x and a y, each uniform in the grid range;
we reduce the stream value modulo the dimension so any stream gives
in-range coordinates. -/
def Rng.draw (rng : Rng) (sz : Nat × Nat) : (Nat × Nat) × Rng :=
  (((rng.seq rng.idx).1 % sz.1, (rng.seq rng.idx).2 % sz.2), ⟨rng.seq, rng.idx + 1⟩)

/-- Rational addition, multiplication, comparison and embedding of a
natural number, written through mkRat so that they evaluate inside the
kernel; the bridge lemmas qAdd_eq, qMul_eq, qLe_eq and natToQ_eq below
identify them with the standard rational operations. -/
def qAdd (a b : ℚ) : ℚ := mkRat (a.num * b.den + b.num * a.den) (a.den * b.den)

def qMul (a b : ℚ) : ℚ := mkRat (a.num * b.num) (a.den * b.den)

def qLe (a b : ℚ) : Bool := decide (a.num * b.den ≤ b.num * a.den)

def natToQ (n : Nat) : ℚ := mkRat n 1

/-- Pointwise update of the grid function (numpy cell assignment). -/
def setCell (g : Nat × Nat → Cell) (p : Nat × Nat) (c : Cell) : Nat × Nat → Cell :=
  fun q => if q = p then c else g q

/-- Pointwise update of the heap (mutation of one Python object). -/
def setAgent (h : Ref → AgentData) (r : Ref) (a : AgentData) : Ref → AgentData :=
  fun q => if q = r then a else h q

/-- agent.set_position. -/
def setPos (s : Env) (r : Ref) (p : Nat × Nat) : Env :=
  { s with heap := setAgent s.heap r { s.heap r with pos := p } }

/-- agent.add_health: health is incremented, per the spec description
of the kill reward and the hunger decrement. -/
def addHealth (s : Env) (r : Ref) (v : ℚ) : Env :=
  { s with heap := setAgent s.heap r { s.heap r with health := qAdd (s.heap r).health v } }

/-- Python modulo for a possibly negative left operand and a natural
modulus, as used for toroidal wrapping. -/
def pymod (a : Int) (n : Nat) : Nat :=
  (a % (n : Int)).toNat

/-- The filter [a for a in self.agents if role in a.role]. -/
def roleRefs (s : Env) (ρ : Role) : List Ref :=
  s.agents.filter (fun r => (s.heap r).role == ρ)

def predCount (s : Env) : Nat := (roleRefs s Role.predator).length

def preyCount (s : Env) : Nat := (roleRefs s Role.prey).length

/-! ### Python dict model: association lists, unique keys by construction -/

/-- d[k] = v : overwrite the value in place if the key exists,
append the pair otherwise. -/
def dictSet {α : Type} (d : List (String × α)) (k : String) (v : α) : List (String × α) :=
  if d.any (fun kv => kv.1 == k) then
    d.map (fun kv => if kv.1 == k then (k, v) else kv)
  else d ++ [(k, v)]

/-- d[k] with a default (the default is never reached on the traced
code paths, where the key is always present). -/
def dictGetD {α : Type} (d : List (String × α)) (k : String) (v₀ : α) : α :=
  ((d.find? (fun kv => kv.1 == k)).map (fun kv => kv.2)).getD v₀

/-- dict comprehension  id -> v0  over the agents list. -/
def dictInit {α : Type} (s : Env) (v₀ : α) : List (String × α) :=
  s.agents.foldl (fun d r => dictSet d (s.heap r).id v₀) []

/-! ### agents_move -/

/-- The candidate destination computed from the pre-tick position and
the action code: 1 up, 2 down, 3 left, 4 right, toroidally wrapped;
any other code keeps the position. -/
def candidate (s : Env) (p : Nat × Nat) (action : Nat) : Nat × Nat :=
  if action = 1 then (pymod ((p.1 : Int) - 1) s.gridSize.1, p.2)
  else if action = 2 then (pymod ((p.1 : Int) + 1) s.gridSize.1, p.2)
  else if action = 3 then (p.1, pymod ((p.2 : Int) - 1) s.gridSize.2)
  else if action = 4 then (p.1, pymod ((p.2 : Int) + 1) s.gridSize.2)
  else p

/-- The destination granted to one agent: the candidate if that cell
is empty in the pre-tick snapshot, the old position otherwise. -/
def resolveDest (s : Env) (actions : String → Nat) (r : Ref) : Nat × Nat :=
  let a := s.heap r
  let c := candidate s a.pos (actions a.id)
  if s.grid c = Cell.empty then c else a.pos

/-- The new_positions dict, keyed by agent id, fully built before any
grid mutation. -/
def newPositions (s : Env) (actions : String → Nat) : List (String × (Nat × Nat)) :=
  s.agents.map (fun r => ((s.heap r).id, resolveDest s actions r))

/-- Lookup in new_positions: a Python dict keeps the last write for a
key, so the lookup takes the last matching entry. -/
def dictLast (d : List (String × (Nat × Nat))) (k : String) (dflt : Nat × Nat) : Nat × Nat :=
  ((d.reverse.find? (fun kv => kv.1 == k)).map (fun kv => kv.2)).getD dflt

/-- The walls-only grid produced at the start of the rebuild:
grid.fill(0) followed by re-placing every stored wall. -/
def wallsGrid (s : Env) : Nat × Nat → Cell :=
  s.walls.foldl (fun g w => setCell g w Cell.wall) (fun _ => Cell.empty)

/-- One iteration of the rebuild loop: look the agent id up in
new_positions, write the agent there, record the position. -/
def moveStep (np : List (String × (Nat × Nat))) (st : Env) (r : Ref) : Env :=
  let p := dictLast np (st.heap r).id (st.heap r).pos
  { st with
      grid := setCell st.grid p (Cell.agent r)
      heap := setAgent st.heap r { st.heap r with pos := p } }

/-- Grid rebuild: clear all cells, re-place the walls, then write each
agent to its resolved destination in registry order, updating the
recorded position. -/
def applyMoves (np : List (String × (Nat × Nat))) (s : Env) : Env :=
  s.agents.foldl (moveStep np) { s with grid := wallsGrid s }

/-- PredatorPreyEnv.agents_move. -/
def agentsMove (actions : String → Nat) (s : Env) : Env :=
  applyMoves (newPositions s actions) s

/-! ### hunting -/

/-- The offsets -scope .. scope in ascending order. -/
def offsetRange (scope : Nat) : List Int :=
  (List.range (2 * scope + 1)).map (fun i => (i : Int) - (scope : Int))

/-- The scan of the square neighbourhood: offsets enumerated dx
ascending then dy ascending, the centre skipped; each prey found is
tagged with its Manhattan distance and wrapped position. -/
def preyInScope (s : Env) (px py : Nat) : List (Nat × Nat × Nat) :=
  ((offsetRange s.predatorScope).flatMap
      (fun dx => (offsetRange s.predatorScope).map (fun dy => (dx, dy)))).filterMap
    (fun d =>
      if d = (0, 0) then none
      else
        let nx := pymod ((px : Int) + d.1) s.gridSize.1
        let ny := pymod ((py : Int) + d.2) s.gridSize.2
        match s.grid (nx, ny) with
        | Cell.agent q =>
            if (s.heap q).role == Role.prey then some (d.1.natAbs + d.2.natAbs, nx, ny)
            else none
        | _ => none)

/-- Lexicographic comparison on (distance, x, y): the order used by the
Python sort on (distance, (nx, ny)) tuples. -/
def tupLE (a b : Nat × Nat × Nat) : Prop :=
  a.1 < b.1 ∨ (a.1 = b.1 ∧ (a.2.1 < b.2.1 ∨ (a.2.1 = b.2.1 ∧ a.2.2 ≤ b.2.2)))

instance : DecidableRel tupLE := fun a b => by
  unfold tupLE; infer_instance

/-- prey_in_scope.sort() followed by taking element 0: the selected
(distance, position) entry, none when no prey is in scope. -/
def huntTarget (s : Env) (px py : Nat) : Option (Nat × Nat × Nat) :=
  (List.insertionSort tupLE (preyInScope s px py)).head?

/-- One predator hunting step: select the nearest prey, remove the
first registry agent standing at the selected position, clear the
cell, credit the rewards, feed the predator, flag the prey done. -/
def huntOne (st : Env × List (String × Int) × List (String × Bool)) (p : Ref) :
    Env × List (String × Int) × List (String × Bool) :=
  let s := st.1
  let rw := st.2.1
  let dn := st.2.2
  match huntTarget s (s.heap p).pos.1 (s.heap p).pos.2 with
  | none => st
  | some t =>
    let tp := t.2
    match s.agents.find? (fun q => (s.heap q).pos == tp) with
    | none => st
    | some prey =>
      let s₁ := { s with agents := s.agents.erase prey, grid := setCell s.grid tp Cell.empty }
      let rw₁ := dictSet rw (s₁.heap p).id (dictGetD rw (s₁.heap p).id 0 + 1)
      let rw₂ := dictSet rw₁ (s₁.heap prey).id (dictGetD rw₁ (s₁.heap prey).id 0 + (-1))
      let s₂ := addHealth s₁ p s₁.healthGained
      let dn₁ := dictSet dn (s₂.heap prey).id true
      (s₂, rw₂, dn₁)

/-- PredatorPreyEnv.hunting: iterate over the snapshot of live
predators. -/
def hunting (s : Env) (rw : List (String × Int)) (dn : List (String × Bool)) :
    Env × List (String × Int) × List (String × Bool) :=
  (roleRefs s Role.predator).foldl huntOne (s, rw, dn)

/-! ### predator_hunger -/

/-- One predator hunger step: health -0.01, removal when it drops to
or below zero. -/
def hungerOne (st : Env × List (String × Bool)) (p : Ref) : Env × List (String × Bool) :=
  let s := addHealth st.1 p (mkRat (-1) 100)
  if qLe (s.heap p).health 0 then
    ({ s with agents := s.agents.erase p,
              grid := setCell s.grid (s.heap p).pos Cell.empty },
     dictSet st.2 (s.heap p).id true)
  else (s, st.2)

/-- PredatorPreyEnv.predator_hunger. -/
def predatorHunger (s : Env) (dn : List (String × Bool)) : Env × List (String × Bool) :=
  (roleRefs s Role.predator).foldl hungerOne (s, dn)

/-! ### generate_new_agents and the placement loops -/

/-- The while-True rejection sampling of the source, with explicit
fuel: draw a cell, stop when it is empty.  The source loop has no
bound, so running out of fuel (none) models an execution that has not
terminated within that many attempts. -/
def placeLoop (s : Env) : Nat → Rng → Option ((Nat × Nat) × Rng)
  | 0, _ => none
  | fuel + 1, rng =>
    let d := rng.draw s.gridSize
    if s.grid d.1 = Cell.empty then some d else placeLoop s fuel d.2

/-- Spawn k new agents of one role: the id is the role tag followed by
the current live count of that role, the position comes from the
rejection sampling, the new agent is written to the grid and appended
to the registry. -/
def spawnLoop (ρ : Role) (tag : String) : Nat → Env → Rng → Nat → Option (Env × Rng)
  | 0, s, rng, _ => some (s, rng)
  | k + 1, s, rng, fuel =>
    let idStr := tag ++ toString (roleRefs s ρ).length
    match placeLoop s fuel rng with
    | none => none
    | some (xy, rng') =>
      let r := s.nextRef
      spawnLoop ρ tag k
        { s with
            heap := setAgent s.heap r ⟨idStr, ρ, xy, 1⟩
            grid := setCell s.grid xy (Cell.agent r)
            agents := s.agents ++ [r]
            nextRef := r + 1 }
        rng' fuel

/-- math.ceil of a rational, as a natural number (the arguments in the
source are the products count * probability, which are nonnegative;
for a nonpositive argument the result is 0). -/
def ceilQ (x : ℚ) : Nat :=
  (x.num.toNat + x.den - 1) / x.den

/-- PredatorPreyEnv.generate_new_agents: both live counts are taken
before any spawning; a role spawns max(1, ceil(count * p)) agents when
its count is below the cap, otherwise none. -/
def generateNewAgents (pPred pPrey : ℚ) (s : Env) (fuel : Nat) (rng : Rng) :
    Option (Env × Rng) :=
  let numPred := predCount s
  let numPreys := preyCount s
  let newPred := if numPred < s.maxNumPredators then max 1 (ceilQ (qMul (natToQ numPred) pPred)) else 0
  let newPreys := if numPreys < s.maxNumPreys then max 1 (ceilQ (qMul (natToQ numPreys) pPrey)) else 0
  match spawnLoop Role.predator "pr_" newPred s rng fuel with
  | none => none
  | some (s₁, rng₁) => spawnLoop Role.prey "py_" newPreys s₁ rng₁ fuel

/-! ### observations -/

/-- The four channel values (wall, predator, prey, health) of one cell
of the egocentric window. -/
def obsEntry (s : Env) (r : Ref) (dx dy : Int) : Nat × Nat × Nat × ℚ :=
  let a := s.heap r
  let n := (pymod ((a.pos.1 : Int) + dx) s.gridSize.1,
            pymod ((a.pos.2 : Int) + dy) s.gridSize.2)
  match s.grid n with
  | Cell.wall => (1, 0, 0, 0)
  | Cell.agent q =>
    match (s.heap q).role with
    | Role.predator => (0, 1, 0, (s.heap q).health)
    | Role.prey => (0, 0, 1, (s.heap q).health)
  | Cell.empty => (0, 0, 0, 0)

/-- PredatorPreyEnv.get_observation: the (2 scope + 1) square window,
rows indexed by dx, columns by dy. -/
def getObservation (s : Env) (r : Ref) : List (List (Nat × Nat × Nat × ℚ)) :=
  (offsetRange s.predatorScope).map
    (fun dx => (offsetRange s.predatorScope).map (fun dy => obsEntry s r dx dy))

/-! ### reset -/

/-- The wall placement loop of reset. -/
def placeWalls : Nat → Env → Rng → Nat → Option (Env × Rng)
  | 0, s, rng, _ => some (s, rng)
  | k + 1, s, rng, fuel =>
    match placeLoop s fuel rng with
    | none => none
    | some (xy, rng') =>
      placeWalls k
        { s with grid := setCell s.grid xy Cell.wall, walls := s.walls ++ [xy] }
        rng' fuel

/-- The initial agent placement loops of reset; the id index i counts
up from 0 independently of the registry. -/
def placeInitAgents (ρ : Role) (tag : String) : Nat → Nat → Env → Rng → Nat →
    Option (Env × Rng)
  | _, 0, s, rng, _ => some (s, rng)
  | i, k + 1, s, rng, fuel =>
    match placeLoop s fuel rng with
    | none => none
    | some (xy, rng') =>
      let r := s.nextRef
      placeInitAgents ρ tag (i + 1) k
        { s with
            heap := setAgent s.heap r ⟨tag ++ toString i, ρ, xy, 1⟩
            grid := setCell s.grid xy (Cell.agent r)
            agents := s.agents ++ [r]
            nextRef := r + 1 }
        rng' fuel

/-- PredatorPreyEnv.reset: clear the grid and the wall list (the
agents list is, as in the source, not cleared), then place walls,
predators and prey by rejection sampling. -/
def reset (s : Env) (fuel : Nat) (rng : Rng) : Option (Env × Rng) :=
  let s₀ := { s with grid := fun _ => Cell.empty, walls := [] }
  match placeWalls s.numWalls s₀ rng fuel with
  | none => none
  | some (s₁, rng₁) =>
    match placeInitAgents Role.predator "pr_" 0 s.numPredators s₁ rng₁ fuel with
    | none => none
    | some (s₂, rng₂) => placeInitAgents Role.prey "py_" 0 s.numPrey s₂ rng₂ fuel

/-! ### step -/

/-- PredatorPreyEnv.step: rewards and dones initialised over the
agents alive at tick start, then move, hunt, hunger, spawn, observe. -/
def step (actions : String → Nat) (s : Env) (fuel : Nat) (rng : Rng) :
    Option (List (String × List (List (Nat × Nat × Nat × ℚ))) ×
            List (String × Int) × List (String × Bool) × Env × Rng) :=
  let rw := dictInit s (0 : Int)
  let dn := dictInit s false
  let s₁ := agentsMove actions s
  let h := hunting s₁ rw dn
  let g := predatorHunger h.1 h.2.2
  match generateNewAgents (mkRat 3 1000) (mkRat 6 1000) g.1 fuel rng with
  | none => none
  | some (s₄, rng') =>
    (some (s₄.agents.foldl (fun d r => dictSet d (s₄.heap r).id (getObservation s₄ r)) [],
           h.2.1, g.2, s₄, rng'))

/-- n successive step calls with a per-tick action table. -/
def stepN (acts : Nat → String → Nat) (fuel : Nat) : Nat → Env → Rng → Option (Env × Rng)
  | 0, s, rng => some (s, rng)
  | n + 1, s, rng =>
    match step (acts 0) s fuel rng with
    | none => none
    | some (_, _, _, s', rng') => stepN (fun i => acts (i + 1)) fuel n s' rng'

/-! ### Specification predicates -/

/-- The destination finally granted to agent r by the move phase: the
new_positions entry read back under the id of r. -/
def destOf (s : Env) (actions : String → Nat) (r : Ref) : Nat × Nat :=
  dictLast (newPositions s actions) (s.heap r).id (s.heap r).pos

/-- The list of destinations the rebuild writes, in registry order. -/
def resolvedDests (s : Env) (actions : String → Nat) : List (Nat × Nat) :=
  s.agents.map (fun r => destOf s actions r)

/-- In-bounds positions of the numpy array. -/
def inB (s : Env) (p : Nat × Nat) : Prop :=
  p.1 < s.gridSize.1 ∧ p.2 < s.gridSize.2

instance (s : Env) (p : Nat × Nat) : Decidable (inB s p) := by
  unfold inB; infer_instance

/-- All in-bounds cells. -/
def allCells (s : Env) : List (Nat × Nat) :=
  (List.range s.gridSize.1).flatMap (fun x => (List.range s.gridSize.2).map (fun y => (x, y)))

def isAgentCell : Cell → Bool
  | Cell.agent _ => true
  | _ => false

/-- The number of in-bounds cells holding an agent reference. -/
def occupiedCount (s : Env) : Nat :=
  (allCells s).countP (fun p => isAgentCell (s.grid p))

/-- The occupancy consistency stated by the spec: the registry holds no
duplicate, every live agent is stored in the grid cell of its own
recorded (in-bounds) position, and the number of occupied non-wall
cells equals the number of live agents. -/
def consistent (s : Env) : Prop :=
  s.agents.Nodup ∧
  (∀ r ∈ s.agents, inB s (s.heap r).pos ∧ s.grid (s.heap r).pos = Cell.agent r) ∧
  occupiedCount s = s.agents.length

instance (s : Env) : Decidable (consistent s) := by
  unfold consistent; infer_instance

/-- Heap references held in the registry were allocated below the
allocation counter; automatic for Python objects, an explicit invariant
of the heap embedding. -/
def refsFresh (s : Env) : Prop :=
  ∀ r ∈ s.agents, r < s.nextRef

instance (s : Env) : Decidable (refsFresh s) := by
  unfold refsFresh; infer_instance

/-- The pointwise form of consistency: no duplicate registry entry,
every agent stored at its in-bounds position, and no grid cell holding
a reference that is dead or displaced. -/
def sound (s : Env) : Prop :=
  s.agents.Nodup ∧
  (∀ r ∈ s.agents, inB s (s.heap r).pos ∧ s.grid (s.heap r).pos = Cell.agent r) ∧
  (∀ q r, s.grid q = Cell.agent r → r ∈ s.agents ∧ q = (s.heap r).pos)

/-- Wall bookkeeping: the wall list describes exactly the wall cells,
and no live agent stands on a listed wall. -/
def wallsOk (s : Env) : Prop :=
  (∀ p, p ∈ s.walls ↔ s.grid p = Cell.wall) ∧
  (∀ r ∈ s.agents, (s.heap r).pos ∉ s.walls)

/-- Written from the words of the spec, for comparison with the
implemented selection: the first prey encountered in the scan order
(dx ascending, then dy ascending) among those at minimal Manhattan
distance. -/
def specScanFirst (s : Env) (px py : Nat) : Option (Nat × Nat) :=
  let l := preyInScope s px py
  (l.find? (fun e => l.all (fun e₂ => e.1 ≤ e₂.1))).map (fun e => e.2)


/-! ### Concrete instances used by witnesses and counterexamples -/

/-- An Option postcondition: holds trivially on none, on the value on
some. -/
def optionHolds {α : Type} (P : α → Prop) : Option α → Prop
  | none => True
  | some x => P x

/-- A finite heap given as a list of agent records (index = reference). -/
def heapOf (l : List AgentData) : Ref → AgentData :=
  fun r => l.getD r ⟨"", Role.prey, (0, 0), 0⟩

/-- A finite grid given as an association list of cells. -/
def gridOf (l : List ((Nat × Nat) × Cell)) : Nat × Nat → Cell :=
  fun p => ((l.find? (fun e => e.1 == p)).map (fun e => e.2)).getD Cell.empty

/-- The cell of the i-th placement attempt of a draw stream. -/
def drawCellAt (sz : Nat × Nat) (rng : Rng) (i : Nat) : Nat × Nat :=
  ((rng.seq (rng.idx + i)).1 % sz.1, (rng.seq (rng.idx + i)).2 % sz.2)

/-- Two prey racing for cell (1,0) on a 3 x 3 grid: a movement conflict. -/
def cexS₁ : Env := { mkEnv (3, 3) 0 0 0 1 (mkRat 3 10) with
  agents := [0, 1],
  heap := heapOf [⟨"py_0", Role.prey, (0, 0), 1⟩, ⟨"py_1", Role.prey, (2, 0), 1⟩],
  grid := gridOf [((0, 0), Cell.agent 0), ((2, 0), Cell.agent 1)],
  nextRef := 2 }

def cexA₁ : String → Nat := fun id => if id == "py_0" then 2 else if id == "py_1" then 1 else 0

def cexR₁ : Rng := ⟨fun i => if i == 0 then (2, 2) else (2, 1), 0⟩

/-- A predator and a prey on a 3 x 3 grid. -/
def witS₁ : Env := { mkEnv (3, 3) 0 0 0 1 (mkRat 3 10) with
  agents := [0, 1],
  heap := heapOf [⟨"pr_0", Role.predator, (0, 0), 1⟩, ⟨"py_0", Role.prey, (2, 2), 1⟩],
  grid := gridOf [((0, 0), Cell.agent 0), ((2, 2), Cell.agent 1)],
  nextRef := 2 }

def witA₁ : String → Nat := fun _ => 0

def witR₁ : Rng := ⟨fun i => if i == 0 then (1, 1) else (1, 2), 0⟩

/-- The predator moves down, the prey stays. -/
def witA₂ : String → Nat := fun id => if id == "pr_0" then 2 else 0

/-- A predator at (0,0) of a 5 x 5 grid with prey at (4,0) and (0,1):
both prey are at distance 1, and the window wraps. -/
def cexS₃ : Env := { mkEnv (5, 5) 0 0 0 1 (mkRat 3 10) with
  agents := [0, 1, 2],
  heap := heapOf [⟨"pr_0", Role.predator, (0, 0), 1⟩, ⟨"py_0", Role.prey, (4, 0), 1⟩,
    ⟨"py_1", Role.prey, (0, 1), 1⟩],
  grid := gridOf [((0, 0), Cell.agent 0), ((4, 0), Cell.agent 1), ((0, 1), Cell.agent 2)],
  nextRef := 3 }

/-- The example of the claim: predator at (2,2), prey at (1,2) and (2,1). -/
def exS₃ : Env := { mkEnv (5, 5) 0 0 0 1 (mkRat 3 10) with
  agents := [0, 1, 2],
  heap := heapOf [⟨"pr_0", Role.predator, (2, 2), 1⟩, ⟨"py_0", Role.prey, (1, 2), 1⟩,
    ⟨"py_1", Role.prey, (2, 1), 1⟩],
  grid := gridOf [((2, 2), Cell.agent 0), ((1, 2), Cell.agent 1), ((2, 1), Cell.agent 2)],
  nextRef := 3 }

/-- 9999 predators on a 10100 x 2 grid (the registry one below the
configured cap of 10000). -/
def cexS₄ : Env := { mkEnv (10100, 2) 0 0 0 1 (mkRat 3 10) with
  agents := List.range 9999,
  heap := fun r => ⟨"pr_x", Role.predator, (r % 10100, 0), 1⟩,
  grid := fun _ => Cell.empty,
  nextRef := 9999 }

def cexR₄ : Rng := ⟨fun i => (10000 + i, 1), 0⟩

/-- Two predators and one prey on a 4 x 4 grid. -/
def witS₄ : Env := { mkEnv (4, 4) 0 0 0 1 (mkRat 3 10) with
  agents := [0, 1, 2],
  heap := heapOf [⟨"pr_0", Role.predator, (0, 0), 1⟩, ⟨"pr_1", Role.predator, (1, 1), 1⟩,
    ⟨"py_0", Role.prey, (2, 2), 1⟩],
  grid := gridOf [((0, 0), Cell.agent 0), ((1, 1), Cell.agent 1), ((2, 2), Cell.agent 2)],
  nextRef := 3 }

def witR₄ : Rng := ⟨fun i => (3, i % 4), 0⟩

/-- A 1 x 1 environment asking for one wall and one predator: after the
wall is placed the grid is full. -/
def cexE₅ : Env := mkEnv (1, 1) 1 0 1 2 (mkRat 3 10)

/-- A single agent at (0,0) of a non-square 5 x 7 grid. -/
def cexS₇ : Env := { mkEnv (5, 7) 0 0 0 1 (mkRat 3 10) with
  agents := [0],
  heap := heapOf [⟨"py_0", Role.prey, (0, 0), 1⟩],
  grid := gridOf [((0, 0), Cell.agent 0)],
  nextRef := 1 }

def cexA₇ : String → Nat := fun _ => 1

/-- A fresh environment with no live agents at all. -/
def witS₁₀ : Env := mkEnv (3, 3) 0 0 0 1 (mkRat 3 10)

def witR₁₀ : Rng := ⟨fun i => (i, i), 0⟩

/-! ## Lemmas -/

/-! ### Bridges between the kernel-reducible rational operations and
the standard ones -/

theorem qAdd_eq (a b : ℚ) : qAdd a b = a + b := by
  unfold qAdd
  conv_rhs => rw [← Rat.num_divInt_den a, ← Rat.num_divInt_den b]
  rw [Rat.divInt_add_divInt _ _ (Int.natCast_ne_zero.mpr a.den_nz)
    (Int.natCast_ne_zero.mpr b.den_nz), Rat.mkRat_eq_divInt]
  push_cast
  ring_nf

theorem qMul_eq (a b : ℚ) : qMul a b = a * b := by
  unfold qMul
  conv_rhs => rw [← Rat.num_divInt_den a, ← Rat.num_divInt_den b]
  rw [Rat.divInt_mul_divInt _ _ (Int.natCast_ne_zero.mpr a.den_nz)
    (Int.natCast_ne_zero.mpr b.den_nz), Rat.mkRat_eq_divInt]
  push_cast
  ring_nf

theorem natToQ_eq (n : Nat) : natToQ n = (n : ℚ) := by
  unfold natToQ
  simp

theorem qLe_eq (a b : ℚ) : qLe a b = true ↔ a ≤ b := by
  unfold qLe
  rw [decide_eq_true_iff]
  conv_rhs => rw [← Rat.num_divInt_den a, ← Rat.num_divInt_den b]
  rw [Rat.divInt_le_divInt (by positivity) (by positivity)]

/-! ### Generic list facts -/

theorem find?_unique {α : Type} (p : α → Bool) (l : List α) (a : α)
    (ha : a ∈ l) (hpa : p a = true) (huniq : ∀ x ∈ l, p x = true → x = a) :
    l.find? p = some a := by
  induction l with
  | nil => cases ha
  | cons b t ih =>
    by_cases hb : p b = true
    · have hba := huniq b (List.mem_cons_self _ _) hb
      rw [List.find?_cons_of_pos _ hb, hba]
    · rw [List.find?_cons_of_neg _ hb]
      rcases List.mem_cons.mp ha with h | h
      · exact absurd (h ▸ hpa) hb
      · exact ih h (fun x hx hpx => huniq x (List.mem_cons_of_mem _ hx) hpx)

theorem mem_allCells (s : Env) (p : Nat × Nat) : p ∈ allCells s ↔ inB s p := by
  unfold allCells inB
  simp only [List.mem_flatMap, List.mem_map, List.mem_range]
  constructor
  · rintro ⟨x, hx, y, hy, rfl⟩
    exact ⟨hx, hy⟩
  · rintro ⟨h1, h2⟩
    exact ⟨p.1, h1, p.2, h2, rfl⟩

theorem nodup_allCells (s : Env) : (allCells s).Nodup := by
  unfold allCells
  refine List.nodup_flatMap.mpr ⟨?_, ?_⟩
  · intro x _
    exact (List.nodup_range _).map (fun a b h => (Prod.mk.injEq _ _ _ _ ▸ h).2)
  · refine (List.nodup_range _).imp ?_
    intro a b hab
    intro l h1 h2
    simp only [List.mem_map] at h1 h2
    obtain ⟨y1, _, rfl⟩ := h1
    obtain ⟨y2, _, he⟩ := h2
    exact hab (congrArg Prod.fst he.symm)

/-- countP of a predicate characterising membership in a nodup
sublist. -/
theorem countP_mem_eq_length {α : Type} [DecidableEq α] (all ds : List α) (pr : α → Bool)
    (hpr : ∀ x, pr x = true ↔ x ∈ ds)
    (hall : all.Nodup) (hds : ds.Nodup) (hsub : ∀ x ∈ ds, x ∈ all) :
    all.countP pr = ds.length := by
  rw [List.countP_eq_length_filter]
  have hf : (all.filter pr).Nodup := hall.filter _
  have hmem : ∀ x, x ∈ all.filter pr ↔ x ∈ ds := by
    intro x
    simp only [List.mem_filter, hpr]
    exact ⟨fun h => h.2, fun h => ⟨hsub x h, h⟩⟩
  have hfin : (all.filter pr).toFinset = ds.toFinset := by
    apply Finset.ext
    intro x
    simp only [List.mem_toFinset]
    exact hmem x
  calc (all.filter pr).length
      = (all.filter pr).toFinset.card := (List.toFinset_card_of_nodup hf).symm
    _ = ds.toFinset.card := by rw [hfin]
    _ = ds.length := List.toFinset_card_of_nodup hds

/-! ### The pointwise form of consistency implies the counted form -/

theorem sound_consistent {s : Env} (h : sound s) : consistent s := by
  obtain ⟨hnd, hA, hB⟩ := h
  refine ⟨hnd, hA, ?_⟩
  have hpos : ∀ x ∈ s.agents, ∀ y ∈ s.agents,
      (s.heap x).pos = (s.heap y).pos → x = y := by
    intro x hx y hy hxy
    have h1 := (hA x hx).2
    have h2 := (hA y hy).2
    rw [hxy, h2] at h1
    exact (Cell.agent.injEq _ _ ▸ h1.symm)
  have hndp : (s.agents.map (fun r => (s.heap r).pos)).Nodup :=
    List.Nodup.map_on hpos hnd
  have hsub : ∀ q ∈ s.agents.map (fun r => (s.heap r).pos), q ∈ allCells s := by
    intro q hq
    obtain ⟨r, hr, rfl⟩ := List.mem_map.mp hq
    exact (mem_allCells s _).mpr (hA r hr).1
  have hpr : ∀ q, isAgentCell (s.grid q) = true ↔
      q ∈ s.agents.map (fun r => (s.heap r).pos) := by
    intro q
    constructor
    · intro hq
      match hg : s.grid q with
      | Cell.agent r =>
        obtain ⟨hr, rfl⟩ := hB q r hg
        exact List.mem_map.mpr ⟨r, hr, rfl⟩
      | Cell.empty => rw [hg] at hq; simp [isAgentCell] at hq
      | Cell.wall => rw [hg] at hq; simp [isAgentCell] at hq
    · intro hq
      obtain ⟨r, hr, rfl⟩ := List.mem_map.mp hq
      rw [(hA r hr).2]
      rfl
  unfold occupiedCount
  rw [countP_mem_eq_length (allCells s) _ _ hpr (nodup_allCells s) hndp hsub, List.length_map]

/-! ### Movement phase lemmas -/

/-- The static fields and the wall list are shared by two states. -/
def staticEq (t s : Env) : Prop :=
  t.gridSize = s.gridSize ∧ t.predatorScope = s.predatorScope ∧
  t.healthGained = s.healthGained ∧ t.maxNumPredators = s.maxNumPredators ∧
  t.maxNumPreys = s.maxNumPreys ∧ t.walls = s.walls ∧
  t.numPredators = s.numPredators ∧ t.numPrey = s.numPrey ∧ t.numWalls = s.numWalls

theorem staticEq_refl (s : Env) : staticEq s s :=
  ⟨rfl, rfl, rfl, rfl, rfl, rfl, rfl, rfl, rfl⟩

theorem staticEq_trans {u t s : Env} (h1 : staticEq u t) (h2 : staticEq t s) :
    staticEq u s := by
  obtain ⟨a1, a2, a3, a4, a5, a6, a7, a8, a9⟩ := h1
  obtain ⟨b1, b2, b3, b4, b5, b6, b7, b8, b9⟩ := h2
  exact ⟨a1.trans b1, a2.trans b2, a3.trans b3, a4.trans b4, a5.trans b5,
    a6.trans b6, a7.trans b7, a8.trans b8, a9.trans b9⟩

theorem foldl_wall_eq (ws : List (Nat × Nat)) (g : Nat × Nat → Cell) (q : Nat × Nat) :
    (ws.foldl (fun g w => setCell g w Cell.wall) g) q =
      if q ∈ ws then Cell.wall else g q := by
  induction ws generalizing g with
  | nil => simp
  | cons w t ih =>
    simp only [List.foldl_cons, ih, List.mem_cons]
    by_cases hq : q ∈ t
    · simp [hq]
    · by_cases hw : q = w
      · simp [hq, hw, setCell]
      · simp [hq, hw, setCell]

theorem wallsGrid_eq (s : Env) (q : Nat × Nat) :
    wallsGrid s q = if q ∈ s.walls then Cell.wall else Cell.empty :=
  foldl_wall_eq _ _ _

theorem wallsGrid_ne_agent (s : Env) (q : Nat × Nat) (r : Ref) :
    wallsGrid s q ≠ Cell.agent r := by
  rw [wallsGrid_eq]
  split <;> simp

theorem moveStep_def (np : List (String × (Nat × Nat))) (st : Env) (r : Ref) :
    moveStep np st r =
      { st with
          grid := setCell st.grid (dictLast np (st.heap r).id (st.heap r).pos) (Cell.agent r)
          heap := setAgent st.heap r
            { st.heap r with pos := dictLast np (st.heap r).id (st.heap r).pos } } := rfl

theorem moveFold_static (np : List (String × (Nat × Nat))) :
    ∀ (l : List Ref) (t : Env),
      staticEq (l.foldl (moveStep np) t) t ∧
      (l.foldl (moveStep np) t).agents = t.agents ∧
      (l.foldl (moveStep np) t).nextRef = t.nextRef := by
  intro l
  induction l with
  | nil => intro t; exact ⟨staticEq_refl t, rfl, rfl⟩
  | cons r₀ l ih =>
    intro t
    obtain ⟨h1, h2, h3⟩ := ih (moveStep np t r₀)
    exact ⟨staticEq_trans h1 (staticEq_refl _), h2, h3⟩

theorem moveFold_heap (np : List (String × (Nat × Nat))) (s₀ : Env) :
    ∀ (l : List Ref) (t : Env), l.Nodup →
      (∀ r ∈ l, t.heap r = s₀.heap r) →
      (∀ r ∈ l, (l.foldl (moveStep np) t).heap r =
          { s₀.heap r with pos := dictLast np (s₀.heap r).id (s₀.heap r).pos }) ∧
      (∀ r, r ∉ l → (l.foldl (moveStep np) t).heap r = t.heap r) := by
  intro l
  induction l with
  | nil => exact fun t _ _ => ⟨fun r hr => absurd hr (List.not_mem_nil r), fun r _ => rfl⟩
  | cons r₀ l ih =>
    intro t hnd hkeep
    have hr₀ : t.heap r₀ = s₀.heap r₀ := hkeep r₀ (List.mem_cons_self _ _)
    have hnotin : r₀ ∉ l := (List.nodup_cons.mp hnd).1
    have hkeep' : ∀ r ∈ l, (moveStep np t r₀).heap r = s₀.heap r := by
      intro r hr
      have hne : r ≠ r₀ := fun he => hnotin (he ▸ hr)
      simp only [moveStep_def, setAgent]
      rw [if_neg hne]
      exact hkeep r (List.mem_cons_of_mem _ hr)
    obtain ⟨ihproc, ihkeep⟩ := ih (moveStep np t r₀) (List.nodup_cons.mp hnd).2 hkeep'
    simp only [List.foldl_cons]
    constructor
    · intro r hr
      rcases List.mem_cons.mp hr with rfl | hr
      · rw [ihkeep r hnotin]
        simp only [moveStep_def, setAgent, if_pos rfl]
        rw [hr₀]
        simp
      · exact ihproc r hr
    · intro r hr
      have hne : r ≠ r₀ := fun he => hr (he ▸ List.mem_cons_self _ _)
      have hrl : r ∉ l := fun hh => hr (List.mem_cons_of_mem _ hh)
      rw [ihkeep r hrl]
      simp only [moveStep_def, setAgent]
      rw [if_neg hne]

theorem moveFold_grid (np : List (String × (Nat × Nat))) (s₀ : Env) :
    ∀ (l : List Ref) (t : Env), l.Nodup →
      (∀ r ∈ l, t.heap r = s₀.heap r) →
      (∀ q, (∀ r ∈ l, q ≠ dictLast np (s₀.heap r).id (s₀.heap r).pos) →
          (l.foldl (moveStep np) t).grid q = t.grid q) ∧
      (∀ q r', (l.foldl (moveStep np) t).grid q = Cell.agent r' →
          (r' ∈ l ∧ q = dictLast np (s₀.heap r').id (s₀.heap r').pos) ∨
            t.grid q = Cell.agent r') := by
  intro l
  induction l with
  | nil => exact fun t _ _ => ⟨fun q _ => rfl, fun q r' h => Or.inr h⟩
  | cons r₀ l ih =>
    intro t hnd hkeep
    have hr₀ : t.heap r₀ = s₀.heap r₀ := hkeep r₀ (List.mem_cons_self _ _)
    have hnotin : r₀ ∉ l := (List.nodup_cons.mp hnd).1
    have hkeep' : ∀ r ∈ l, (moveStep np t r₀).heap r = s₀.heap r := by
      intro r hr
      have hne : r ≠ r₀ := fun he => hnotin (he ▸ hr)
      simp only [moveStep_def, setAgent]
      rw [if_neg hne]
      exact hkeep r (List.mem_cons_of_mem _ hr)
    obtain ⟨ihu, ihi⟩ := ih (moveStep np t r₀) (List.nodup_cons.mp hnd).2 hkeep'
    have hgrid' : ∀ q, (moveStep np t r₀).grid q =
        if q = dictLast np (s₀.heap r₀).id (s₀.heap r₀).pos then Cell.agent r₀
        else t.grid q := by
      intro q
      simp only [moveStep_def, setCell, hr₀]
    simp only [List.foldl_cons]
    constructor
    · intro q hq
      rw [ihu q (fun r hr => hq r (List.mem_cons_of_mem _ hr)), hgrid' q,
        if_neg (hq r₀ (List.mem_cons_self _ _))]
    · intro q r' hres
      rcases ihi q r' hres with ⟨hmem, hdest⟩ | hprev
      · exact Or.inl ⟨List.mem_cons_of_mem _ hmem, hdest⟩
      · rw [hgrid' q] at hprev
        by_cases hq : q = dictLast np (s₀.heap r₀).id (s₀.heap r₀).pos
        · rw [if_pos hq] at hprev
          have : r₀ = r' := Cell.agent.injEq _ _ ▸ hprev
          exact Or.inl ⟨this ▸ List.mem_cons_self _ _, this ▸ hq⟩
        · rw [if_neg hq] at hprev
          exact Or.inr hprev

theorem moveFold_grid_hit (np : List (String × (Nat × Nat))) (s₀ : Env) :
    ∀ (l : List Ref) (t : Env), l.Nodup →
      (∀ r ∈ l, t.heap r = s₀.heap r) →
      (l.map (fun r => dictLast np (s₀.heap r).id (s₀.heap r).pos)).Nodup →
      ∀ r ∈ l, (l.foldl (moveStep np) t).grid
          (dictLast np (s₀.heap r).id (s₀.heap r).pos) = Cell.agent r := by
  intro l
  induction l with
  | nil => exact fun t _ _ _ r hr => absurd hr (List.not_mem_nil r)
  | cons r₀ l ih =>
    intro t hnd hkeep hmapnd r hr
    have hr₀ : t.heap r₀ = s₀.heap r₀ := hkeep r₀ (List.mem_cons_self _ _)
    have hnotin : r₀ ∉ l := (List.nodup_cons.mp hnd).1
    have hkeep' : ∀ x ∈ l, (moveStep np t r₀).heap x = s₀.heap x := by
      intro x hx
      have hne : x ≠ r₀ := fun he => hnotin (he ▸ hx)
      simp only [moveStep_def, setAgent]
      rw [if_neg hne]
      exact hkeep x (List.mem_cons_of_mem _ hx)
    have hmapnd' := (List.nodup_cons.mp (List.map_cons _ r₀ l ▸ hmapnd)).2
    have hheadnot := (List.nodup_cons.mp (List.map_cons _ r₀ l ▸ hmapnd)).1
    simp only [List.foldl_cons]
    rcases List.mem_cons.mp hr with rfl | hrl
    · have havoid : ∀ x ∈ l, dictLast np (s₀.heap r).id (s₀.heap r).pos ≠
          dictLast np (s₀.heap x).id (s₀.heap x).pos := by
        intro x hx he
        exact hheadnot (he ▸ List.mem_map.mpr ⟨x, hx, rfl⟩)
      have := (moveFold_grid np s₀ l (moveStep np t r) (List.nodup_cons.mp hnd).2 hkeep').1
      rw [this _ havoid]
      simp only [moveStep_def, setCell, hr₀]
      simp
    · exact ih (moveStep np t r₀) (List.nodup_cons.mp hnd).2 hkeep' hmapnd' r hrl

theorem pymod_lt (a : Int) {n : Nat} (hn : 0 < n) : pymod a n < n := by
  unfold pymod
  have h1 : 0 ≤ a % (n : Int) := Int.emod_nonneg a (by exact_mod_cast hn.ne')
  have h2 : a % (n : Int) < (n : Int) := Int.emod_lt_of_pos a (by exact_mod_cast hn)
  omega

theorem inB_congr {t s : Env} (h : t.gridSize = s.gridSize) (p : Nat × Nat) :
    inB t p ↔ inB s p := by
  unfold inB
  rw [h]

theorem candidate_inB (s : Env) (p : Nat × Nat) (a : Nat)
    (hp : inB s p) (hW : 0 < s.gridSize.1) (hH : 0 < s.gridSize.2) :
    inB s (candidate s p a) := by
  obtain ⟨h1, h2⟩ := hp
  unfold candidate inB
  split_ifs <;> refine ⟨?_, ?_⟩ <;> dsimp only <;> first
    | exact pymod_lt _ hW
    | exact pymod_lt _ hH
    | exact h1
    | exact h2

theorem resolveDest_inB (s : Env) (actions : String → Nat) (r : Ref)
    (hp : inB s (s.heap r).pos) (hW : 0 < s.gridSize.1) (hH : 0 < s.gridSize.2) :
    inB s (resolveDest s actions r) := by
  unfold resolveDest
  dsimp only
  split
  · exact candidate_inB s _ _ hp hW hH
  · exact hp

theorem dictLast_mem {d : List (String × (Nat × Nat))} {k : String} (dflt : Nat × Nat)
    (h : ∃ kv ∈ d, kv.1 = k) :
    ∃ kv ∈ d, kv.1 = k ∧ dictLast d k dflt = kv.2 := by
  unfold dictLast
  obtain ⟨kv0, hkv0, hk0⟩ := h
  match hf : d.reverse.find? (fun kv => kv.1 == k) with
  | some kv =>
    have hmem := List.mem_of_find?_eq_some hf
    have hkey := List.find?_some hf
    refine ⟨kv, List.mem_reverse.mp hmem, by simpa using hkey, ?_⟩
    simp [hf]
  | none =>
    exfalso
    have := List.find?_eq_none.mp hf kv0 (List.mem_reverse.mpr hkv0)
    simp [hk0] at this

theorem destOf_inB (s : Env) (actions : String → Nat) (r : Ref) (hr : r ∈ s.agents)
    (hA : ∀ x ∈ s.agents, inB s (s.heap x).pos)
    (hW : 0 < s.gridSize.1) (hH : 0 < s.gridSize.2) :
    inB s (destOf s actions r) := by
  unfold destOf
  have hex : ∃ kv ∈ newPositions s actions, kv.1 = (s.heap r).id :=
    ⟨((s.heap r).id, resolveDest s actions r), List.mem_map.mpr ⟨r, hr, rfl⟩, rfl⟩
  obtain ⟨kv, hkv, hkey, heq⟩ := dictLast_mem _ hex
  rw [heq]
  obtain ⟨x, hx, rfl⟩ := List.mem_map.mp hkv
  exact resolveDest_inB s actions x (hA x hx) hW hH

theorem agentsMove_spec (actions : String → Nat) (s : Env)
    (hnd : s.agents.Nodup)
    (hA : ∀ r ∈ s.agents, inB s (s.heap r).pos)
    (hW : 0 < s.gridSize.1) (hH : 0 < s.gridSize.2)
    (hdd : (resolvedDests s actions).Nodup) :
    sound (agentsMove actions s) ∧
    (agentsMove actions s).agents = s.agents ∧
    (agentsMove actions s).nextRef = s.nextRef ∧
    staticEq (agentsMove actions s) s ∧
    (∀ r ∈ s.agents, (agentsMove actions s).heap r =
      { s.heap r with pos := destOf s actions r }) ∧
    (∀ r, r ∉ s.agents → (agentsMove actions s).heap r = s.heap r) := by
  have hunf : agentsMove actions s =
      s.agents.foldl (moveStep (newPositions s actions)) { s with grid := wallsGrid s } := rfl
  set np := newPositions s actions with hnp
  set base : Env := { s with grid := wallsGrid s } with hbase
  have hkeep : ∀ r ∈ s.agents, base.heap r = s.heap r := fun r _ => rfl
  obtain ⟨hstat, hagents, hnext⟩ := moveFold_static np s.agents base
  obtain ⟨hproc, hunproc⟩ := moveFold_heap np s s.agents base hnd hkeep
  obtain ⟨hgu, hgi⟩ := moveFold_grid np s s.agents base hnd hkeep
  have hmapnd : (s.agents.map
      (fun r => dictLast np (s.heap r).id (s.heap r).pos)).Nodup := by
    have : resolvedDests s actions =
        s.agents.map (fun r => dictLast np (s.heap r).id (s.heap r).pos) := by
      unfold resolvedDests destOf
      rfl
    exact this ▸ hdd
  have hhit := moveFold_grid_hit np s s.agents base hnd hkeep hmapnd
  have hdestOf : ∀ r, destOf s actions r = dictLast np (s.heap r).id (s.heap r).pos :=
    fun r => rfl
  rw [hunf]
  set res := s.agents.foldl (moveStep np) base with hres
  have hbag : base.agents = s.agents := rfl
  have hragents : res.agents = s.agents := by rw [hagents]
  have hgsz : res.gridSize = s.gridSize := hstat.1
  have hstatic : staticEq res s := staticEq_trans hstat (staticEq_refl _)
  refine ⟨⟨?_, ?_, ?_⟩, hragents, hnext, hstatic, ?_, ?_⟩
  · rw [hragents]; exact hnd
  · intro r hr
    rw [hragents] at hr
    have hheap := hproc r hr
    constructor
    · rw [(inB_congr hgsz _), hheap]
      exact destOf_inB s actions r hr hA hW hH
    · rw [hheap]
      exact hhit r hr
  · intro q r' hq
    rcases hgi q r' hq with ⟨hmem, hdest⟩ | hwall
    · refine ⟨hragents ▸ hmem, ?_⟩
      rw [hproc r' hmem, hdest]
    · exact absurd hwall (wallsGrid_ne_agent s q r')
  · intro r hr
    rw [hdestOf r]
    exact hproc r hr
  · exact hunproc

/-! ### Hunting and hunger phase lemmas -/

theorem dictSet_keys_of_mem {α : Type} (d : List (String × α)) (k : String) (v : α)
    (h : k ∈ d.map Prod.fst) : (dictSet d k v).map Prod.fst = d.map Prod.fst := by
  obtain ⟨kv, hkv, hk⟩ := List.mem_map.mp h
  have hany : d.any (fun kv => kv.1 == k) = true :=
    List.any_eq_true.mpr ⟨kv, hkv, by simp [hk]⟩
  unfold dictSet
  rw [if_pos hany, List.map_map]
  apply List.map_congr_left
  intro x _
  by_cases hx : x.1 == k
  · simp only [Function.comp, hx, if_pos]
    simp only [beq_iff_eq] at hx
    simp [hx]
  · simp [Function.comp, hx]

theorem remove_sound {s : Env} (x : Ref) (hx : x ∈ s.agents) (hs : sound s) :
    sound { s with agents := s.agents.erase x,
                   grid := setCell s.grid (s.heap x).pos Cell.empty } := by
  obtain ⟨hnd, hA, hB⟩ := hs
  have hposinj : ∀ y ∈ s.agents, (s.heap y).pos = (s.heap x).pos → y = x := by
    intro y hy he
    have h1 := (hA y hy).2
    rw [he, (hA x hx).2] at h1
    exact (Cell.agent.injEq _ _ ▸ h1).symm
  refine ⟨hnd.erase x, ?_, ?_⟩
  · intro r hr
    have hrmem := List.mem_of_mem_erase hr
    have hrne : r ≠ x := (List.Nodup.mem_erase_iff hnd).mp hr |>.1
    refine ⟨(hA r hrmem).1, ?_⟩
    show setCell s.grid (s.heap x).pos Cell.empty (s.heap r).pos = Cell.agent r
    unfold setCell
    rw [if_neg (fun he => hrne (hposinj r hrmem he))]
    exact (hA r hrmem).2
  · intro q r hq
    simp only at hq
    unfold setCell at hq
    by_cases hqp : q = (s.heap x).pos
    · rw [if_pos hqp] at hq
      cases hq
    · rw [if_neg hqp] at hq
      obtain ⟨hrm, hqe⟩ := hB q r hq
      have hrne : r ≠ x := fun he => hqp (hqe.trans (congrArg (fun z => (s.heap z).pos) he))
      exact ⟨(List.Nodup.mem_erase_iff hnd).mpr ⟨hrne, hrm⟩, hqe⟩

theorem addHealth_sound {s : Env} (r : Ref) (v : ℚ) (hs : sound s) :
    sound (addHealth s r v) := by
  obtain ⟨hnd, hA, hB⟩ := hs
  have hpos : ∀ q, ((addHealth s r v).heap q).pos = (s.heap q).pos := by
    intro q
    unfold addHealth setAgent
    dsimp only
    by_cases hq : q = r <;> simp [hq]
  refine ⟨hnd, ?_, ?_⟩
  · intro q hq
    refine ⟨?_, ?_⟩
    · rw [hpos q]
      have h1 := (hA q hq).1
      unfold inB at h1 ⊢
      exact h1
    · rw [hpos q]
      exact (hA q hq).2
  · intro q x hq
    obtain ⟨hm, he⟩ := hB q x hq
    exact ⟨hm, he.trans (hpos x).symm⟩

theorem huntOne_spec (s : Env) (rw : List (String × Int)) (dn : List (String × Bool)) (p : Ref) :
    staticEq (huntOne (s, rw, dn) p).1 s ∧
    (huntOne (s, rw, dn) p).1.nextRef = s.nextRef ∧
    (∀ r, ((huntOne (s, rw, dn) p).1.heap r).id = (s.heap r).id ∧
      ((huntOne (s, rw, dn) p).1.heap r).role = (s.heap r).role ∧
      ((huntOne (s, rw, dn) p).1.heap r).pos = (s.heap r).pos) ∧
    (huntOne (s, rw, dn) p).1.agents.Sublist s.agents ∧
    s.agents.length ≤ (huntOne (s, rw, dn) p).1.agents.length + 1 ∧
    (sound s → sound (huntOne (s, rw, dn) p).1) ∧
    ((s.heap p).id ∈ rw.map Prod.fst →
      (∀ q ∈ s.agents, (s.heap q).id ∈ rw.map Prod.fst) →
      (huntOne (s, rw, dn) p).2.1.map Prod.fst = rw.map Prod.fst) ∧
    ((∀ q ∈ s.agents, (s.heap q).id ∈ dn.map Prod.fst) →
      (huntOne (s, rw, dn) p).2.2.map Prod.fst = dn.map Prod.fst) := by
  rcases h1 : huntTarget s (s.heap p).pos.1 (s.heap p).pos.2 with _ | t
  · unfold huntOne
    dsimp only
    rw [h1]
    exact ⟨staticEq_refl _, rfl, fun r => ⟨rfl, rfl, rfl⟩, List.Sublist.refl _,
      Nat.le_succ _, id, fun _ _ => rfl, fun _ => rfl⟩
  · rcases h2 : s.agents.find? (fun q => (s.heap q).pos == t.2) with _ | prey
    · unfold huntOne
      dsimp only
      rw [h1]
      dsimp only
      rw [h2]
      exact ⟨staticEq_refl _, rfl, fun r => ⟨rfl, rfl, rfl⟩, List.Sublist.refl _,
        Nat.le_succ _, id, fun _ _ => rfl, fun _ => rfl⟩
    · have hpmem : prey ∈ s.agents := List.mem_of_find?_eq_some h2
      have hppos : (s.heap prey).pos = t.2 := by
        have := List.find?_some h2
        simpa using this
      unfold huntOne
      dsimp only
      rw [h1]
      dsimp only
      rw [h2]
      dsimp only
      have hheap : ∀ r,
          ((addHealth { s with agents := s.agents.erase prey, grid := setCell s.grid t.2 Cell.empty } p s.healthGained).heap r).id = (s.heap r).id ∧
          ((addHealth { s with agents := s.agents.erase prey, grid := setCell s.grid t.2 Cell.empty } p s.healthGained).heap r).role = (s.heap r).role ∧
          ((addHealth { s with agents := s.agents.erase prey, grid := setCell s.grid t.2 Cell.empty } p s.healthGained).heap r).pos = (s.heap r).pos := by
        intro r
        unfold addHealth setAgent
        dsimp only
        by_cases hr : r = p <;> simp [hr]
      refine ⟨⟨rfl, rfl, rfl, rfl, rfl, rfl, rfl, rfl, rfl⟩, rfl, hheap, ?_, ?_, ?_, ?_, ?_⟩
      · exact List.erase_sublist prey s.agents
      · have h3 := List.length_erase_of_mem hpmem
        have h4 : 0 < s.agents.length := List.length_pos_of_mem hpmem
        show s.agents.length ≤ (s.agents.erase prey).length + 1
        omega
      · intro hs
        have h₁ : sound { s with agents := s.agents.erase prey, grid := setCell s.grid (s.heap prey).pos Cell.empty } :=
          remove_sound prey hpmem hs
        rw [hppos] at h₁
        exact addHealth_sound p _ h₁
      · intro hp hall
        have hprey : (s.heap prey).id ∈ rw.map Prod.fst := hall prey hpmem
        rw [dictSet_keys_of_mem _ _ _ (by rw [dictSet_keys_of_mem _ _ _ hp]; exact hprey),
          dictSet_keys_of_mem _ _ _ hp]
      · intro hall
        have hprey := hall prey hpmem
        rw [dictSet_keys_of_mem]
        rw [(hheap prey).1]
        exact hprey

theorem sublist_countP_bound {α : Type} (pr : α → Bool) {t l : List α} (h : t.Sublist l) :
    l.countP pr ≤ t.countP pr + (l.length - t.length) := by
  induction h with
  | slnil => simp
  | cons a h ih =>
    have := List.Sublist.length_le h
    simp only [List.countP_cons, List.length_cons]
    split <;> omega
  | cons₂ a h ih =>
    have := List.Sublist.length_le h
    simp only [List.countP_cons, List.length_cons]
    split <;> omega

theorem huntFold_spec : ∀ (l : List Ref) (s : Env) (rw : List (String × Int))
    (dn : List (String × Bool)),
    staticEq (l.foldl huntOne (s, rw, dn)).1 s ∧
    (l.foldl huntOne (s, rw, dn)).1.nextRef = s.nextRef ∧
    (∀ r, ((l.foldl huntOne (s, rw, dn)).1.heap r).id = (s.heap r).id ∧
      ((l.foldl huntOne (s, rw, dn)).1.heap r).role = (s.heap r).role ∧
      ((l.foldl huntOne (s, rw, dn)).1.heap r).pos = (s.heap r).pos) ∧
    (l.foldl huntOne (s, rw, dn)).1.agents.Sublist s.agents ∧
    s.agents.length ≤ (l.foldl huntOne (s, rw, dn)).1.agents.length + l.length ∧
    (sound s → sound (l.foldl huntOne (s, rw, dn)).1) ∧
    ((∀ q ∈ l, (s.heap q).id ∈ rw.map Prod.fst) →
      (∀ q ∈ s.agents, (s.heap q).id ∈ rw.map Prod.fst) →
      (∀ q ∈ s.agents, (s.heap q).id ∈ dn.map Prod.fst) →
      (l.foldl huntOne (s, rw, dn)).2.1.map Prod.fst = rw.map Prod.fst ∧
      (l.foldl huntOne (s, rw, dn)).2.2.map Prod.fst = dn.map Prod.fst) := by
  intro l
  induction l with
  | nil =>
    intro s rw dn
    exact ⟨staticEq_refl _, rfl, fun r => ⟨rfl, rfl, rfl⟩, List.Sublist.refl _,
      Nat.le_refl _, id, fun _ _ _ => ⟨rfl, rfl⟩⟩
  | cons p l ih =>
    intro s rw dn
    obtain ⟨o1, o2, o3, o4, o5, o6, o7, o8⟩ := huntOne_spec s rw dn p
    rcases hone : huntOne (s, rw, dn) p with ⟨s', rw', dn'⟩
    rw [hone] at o1 o2 o3 o4 o5 o6 o7 o8
    dsimp only at o1 o2 o3 o4 o5 o6 o7 o8
    obtain ⟨i1, i2, i3, i4, i5, i6, i7⟩ := ih s' rw' dn'
    simp only [List.foldl_cons, hone]
    refine ⟨staticEq_trans i1 o1, i2.trans o2, ?_, i4.trans o4, ?_, fun hs => i6 (o6 hs), ?_⟩
    · intro r
      exact ⟨(i3 r).1.trans (o3 r).1, (i3 r).2.1.trans (o3 r).2.1, (i3 r).2.2.trans (o3 r).2.2⟩
    · have := i5
      simp only [List.length_cons]
      omega
    · intro hl hag hdg
      have hp : (s.heap p).id ∈ rw.map Prod.fst := hl p (List.mem_cons_self _ _)
      have hrw' : rw'.map Prod.fst = rw.map Prod.fst := o7 hp hag
      have hdn' : dn'.map Prod.fst = dn.map Prod.fst := o8 hdg
      have hsub : ∀ q, q ∈ s'.agents → q ∈ s.agents := fun q hq => o4.mem hq
      have hl' : ∀ q ∈ l, (s'.heap q).id ∈ rw'.map Prod.fst := by
        intro q hq
        rw [(o3 q).1, hrw']
        exact hl q (List.mem_cons_of_mem _ hq)
      have hag' : ∀ q ∈ s'.agents, (s'.heap q).id ∈ rw'.map Prod.fst := by
        intro q hq
        rw [(o3 q).1, hrw']
        exact hag q (hsub q hq)
      have hdg' : ∀ q ∈ s'.agents, (s'.heap q).id ∈ dn'.map Prod.fst := by
        intro q hq
        rw [(o3 q).1, hdn']
        exact hdg q (hsub q hq)
      obtain ⟨k1, k2⟩ := i7 hl' hag' hdg'
      exact ⟨k1.trans hrw', k2.trans hdn'⟩

theorem hungerOne_spec (s : Env) (dn : List (String × Bool)) (p : Ref) (hp : p ∈ s.agents) :
    staticEq (hungerOne (s, dn) p).1 s ∧
    (hungerOne (s, dn) p).1.nextRef = s.nextRef ∧
    (∀ r, ((hungerOne (s, dn) p).1.heap r).id = (s.heap r).id ∧
      ((hungerOne (s, dn) p).1.heap r).role = (s.heap r).role ∧
      ((hungerOne (s, dn) p).1.heap r).pos = (s.heap r).pos) ∧
    (hungerOne (s, dn) p).1.agents.Sublist s.agents ∧
    (∀ q, q ∈ s.agents → q ≠ p → q ∈ (hungerOne (s, dn) p).1.agents) ∧
    (sound s → sound (hungerOne (s, dn) p).1) ∧
    ((∀ q ∈ s.agents, (s.heap q).id ∈ dn.map Prod.fst) →
      (hungerOne (s, dn) p).2.map Prod.fst = dn.map Prod.fst) := by
  have hheap : ∀ r, ((addHealth s p (mkRat (-1) 100)).heap r).id = (s.heap r).id ∧
      ((addHealth s p (mkRat (-1) 100)).heap r).role = (s.heap r).role ∧
      ((addHealth s p (mkRat (-1) 100)).heap r).pos = (s.heap r).pos := by
    intro r
    unfold addHealth setAgent
    dsimp only
    by_cases hr : r = p <;> simp [hr]
  unfold hungerOne
  dsimp only
  split
  · refine ⟨⟨rfl, rfl, rfl, rfl, rfl, rfl, rfl, rfl, rfl⟩, rfl, hheap, ?_, ?_, ?_, ?_⟩
    · exact List.erase_sublist _ _
    · intro q hq hne
      exact (List.mem_erase_of_ne hne).mpr hq
    · intro hs
      exact remove_sound p hp (addHealth_sound p _ hs)
    · intro hall
      apply dictSet_keys_of_mem
      rw [(hheap p).1]
      exact hall p hp
  · exact ⟨⟨rfl, rfl, rfl, rfl, rfl, rfl, rfl, rfl, rfl⟩, rfl, hheap, List.Sublist.refl _,
      fun q hq _ => hq, addHealth_sound p _, fun _ => rfl⟩

theorem hungerFold_spec : ∀ (l : List Ref) (s : Env) (dn : List (String × Bool)),
    l.Nodup → (∀ p ∈ l, p ∈ s.agents) →
    staticEq (l.foldl hungerOne (s, dn)).1 s ∧
    (l.foldl hungerOne (s, dn)).1.nextRef = s.nextRef ∧
    (∀ r, ((l.foldl hungerOne (s, dn)).1.heap r).id = (s.heap r).id ∧
      ((l.foldl hungerOne (s, dn)).1.heap r).role = (s.heap r).role ∧
      ((l.foldl hungerOne (s, dn)).1.heap r).pos = (s.heap r).pos) ∧
    (l.foldl hungerOne (s, dn)).1.agents.Sublist s.agents ∧
    (sound s → sound (l.foldl hungerOne (s, dn)).1) ∧
    ((∀ q ∈ s.agents, (s.heap q).id ∈ dn.map Prod.fst) →
      (l.foldl hungerOne (s, dn)).2.map Prod.fst = dn.map Prod.fst) := by
  intro l
  induction l with
  | nil =>
    intro s dn _ _
    exact ⟨staticEq_refl _, rfl, fun r => ⟨rfl, rfl, rfl⟩, List.Sublist.refl _, id, fun _ => rfl⟩
  | cons p l ih =>
    intro s dn hnd hl
    obtain ⟨o1, o2, o3, o4, o5, o6, o7⟩ := hungerOne_spec s dn p (hl p (List.mem_cons_self _ _))
    rcases hone : hungerOne (s, dn) p with ⟨s', dn'⟩
    rw [hone] at o1 o2 o3 o4 o5 o6 o7
    dsimp only at o1 o2 o3 o4 o5 o6 o7
    have hnotin : p ∉ l := (List.nodup_cons.mp hnd).1
    have hl' : ∀ q ∈ l, q ∈ s'.agents := by
      intro q hq
      exact o5 q (hl q (List.mem_cons_of_mem _ hq)) (fun he => hnotin (he ▸ hq))
    obtain ⟨i1, i2, i3, i4, i5, i6⟩ := ih s' dn' (List.nodup_cons.mp hnd).2 hl'
    simp only [List.foldl_cons, hone]
    refine ⟨staticEq_trans i1 o1, i2.trans o2, ?_, i4.trans o4, fun hs => i5 (o6 hs), ?_⟩
    · intro r
      exact ⟨(i3 r).1.trans (o3 r).1, (i3 r).2.1.trans (o3 r).2.1, (i3 r).2.2.trans (o3 r).2.2⟩
    · intro hall
      have hdn' : dn'.map Prod.fst = dn.map Prod.fst := o7 hall
      have hall' : ∀ q ∈ s'.agents, (s'.heap q).id ∈ dn'.map Prod.fst := by
        intro q hq
        rw [(o3 q).1, hdn']
        exact hall q (o4.mem hq)
      exact (i6 hall').trans hdn'

/-! ### Spawn phase lemmas -/

theorem placeLoop_some (s : Env) : ∀ (fuel : Nat) (rng : Rng) (xy : Nat × Nat) (rng' : Rng),
    placeLoop s fuel rng = some (xy, rng') →
    s.grid xy = Cell.empty ∧ rng'.seq = rng.seq ∧
    (0 < s.gridSize.1 → xy.1 < s.gridSize.1) ∧ (0 < s.gridSize.2 → xy.2 < s.gridSize.2) := by
  intro fuel
  induction fuel with
  | zero => intro rng xy rng' h; cases h
  | succ fuel ih =>
    intro rng xy rng' h
    unfold placeLoop at h
    dsimp only at h
    split at h
    · rename_i hempty
      obtain ⟨h1, h2⟩ := Prod.mk.injEq _ _ _ _ ▸ (Option.some.injEq _ _ ▸ h)
      subst h1
      subst h2
      refine ⟨hempty, rfl, fun hW => Nat.mod_lt _ hW, fun hH => Nat.mod_lt _ hH⟩
    · obtain ⟨h1, h2, h3, h4⟩ := ih _ _ _ h
      exact ⟨h1, h2, h3, h4⟩

theorem spawnOne_sound {s : Env} (ρ : Role) (idStr : String) (xy : Nat × Nat)
    (hempty : s.grid xy = Cell.empty) (hxW : xy.1 < s.gridSize.1) (hxH : xy.2 < s.gridSize.2)
    (hfresh : refsFresh s) (hs : sound s) :
    sound { s with heap := setAgent s.heap s.nextRef ⟨idStr, ρ, xy, 1⟩,
                   grid := setCell s.grid xy (Cell.agent s.nextRef),
                   agents := s.agents ++ [s.nextRef], nextRef := s.nextRef + 1 } := by
  obtain ⟨hnd, hA, hB⟩ := hs
  have hnew : s.nextRef ∉ s.agents := fun hmem => Nat.lt_irrefl _ (hfresh _ hmem)
  have hne : ∀ q ∈ s.agents, q ≠ s.nextRef := fun q hq he => hnew (he ▸ hq)
  refine ⟨?_, ?_, ?_⟩
  · show (s.agents ++ [s.nextRef]).Nodup
    rw [List.nodup_append]
    refine ⟨hnd, List.nodup_singleton _, ?_⟩
    intro a ha hb
    have hbe : a = s.nextRef := by simpa using hb
    exact hnew (hbe ▸ ha)
  · intro r hr
    rcases List.mem_append.mp hr with hr | hr
    · have hrne : r ≠ s.nextRef := hne r hr
      constructor
      · show inB _ ((setAgent s.heap s.nextRef ⟨idStr, ρ, xy, 1⟩) r).pos
        unfold setAgent
        rw [if_neg hrne]
        exact (hA r hr).1
      · show setCell s.grid xy (Cell.agent s.nextRef)
            ((setAgent s.heap s.nextRef ⟨idStr, ρ, xy, 1⟩ r).pos) = Cell.agent r
        unfold setAgent setCell
        rw [if_neg hrne]
        rw [if_neg (fun he => ?_)]
        · exact (hA r hr).2
        · have h2 := (hA r hr).2
          rw [he] at h2
          rw [h2] at hempty
          cases hempty
    · have hreq : r = s.nextRef := by simpa using hr
      constructor
      · show inB _ ((setAgent s.heap s.nextRef ⟨idStr, ρ, xy, 1⟩) r).pos
        unfold setAgent
        rw [if_pos hreq]
        exact ⟨hxW, hxH⟩
      · show setCell s.grid xy (Cell.agent s.nextRef)
            ((setAgent s.heap s.nextRef ⟨idStr, ρ, xy, 1⟩ r).pos) = Cell.agent r
        unfold setAgent setCell
        rw [if_pos hreq]
        dsimp only
        rw [if_pos rfl, hreq]
  · intro q r hq
    simp only at hq
    unfold setCell at hq
    by_cases hqe : q = xy
    · rw [if_pos hqe] at hq
      have : s.nextRef = r := Cell.agent.injEq _ _ ▸ hq
      subst this
      refine ⟨List.mem_append.mpr (Or.inr (by simp)), ?_⟩
      show q = ((setAgent s.heap s.nextRef ⟨idStr, ρ, xy, 1⟩) s.nextRef).pos
      unfold setAgent
      rw [if_pos rfl]
      exact hqe
    · rw [if_neg hqe] at hq
      obtain ⟨hm, he⟩ := hB q r hq
      have hrne : r ≠ s.nextRef := hne r hm
      refine ⟨List.mem_append.mpr (Or.inl hm), ?_⟩
      show q = ((setAgent s.heap s.nextRef ⟨idStr, ρ, xy, 1⟩) r).pos
      unfold setAgent
      rw [if_neg hrne]
      exact he

theorem spawnLoop_spec (ρ : Role) (tag : String) : ∀ (k : Nat) (s : Env) (rng : Rng)
    (fuel : Nat) (s' : Env) (rng' : Rng),
    spawnLoop ρ tag k s rng fuel = some (s', rng') →
    refsFresh s →
    staticEq s' s ∧ refsFresh s' ∧ s.nextRef ≤ s'.nextRef ∧
    (∀ ρ', (roleRefs s' ρ').length =
      (roleRefs s ρ').length + (if ρ' = ρ then k else 0)) ∧
    s'.agents.length = s.agents.length + k ∧
    (∀ r ∈ s.agents, r ∈ s'.agents) ∧
    (sound s → 0 < s.gridSize.1 → 0 < s.gridSize.2 → sound s') := by
  intro k
  induction k with
  | zero =>
    intro s rng fuel s' rng' h hfresh
    unfold spawnLoop at h
    rw [Option.some.injEq, Prod.mk.injEq] at h
    obtain ⟨h1, h2⟩ := h
    subst h1
    exact ⟨staticEq_refl _, hfresh, Nat.le_refl _, fun ρ' => by simp,
      by simp, fun r hr => hr, fun hs _ _ => hs⟩
  | succ k ih =>
    intro s rng fuel s' rng' h hfresh
    unfold spawnLoop at h
    dsimp only at h
    rcases hpl : placeLoop s fuel rng with _ | xyr
    · rw [hpl] at h; cases h
    · rcases xyr with ⟨xy, rng₁⟩
      rw [hpl] at h
      dsimp only at h
      obtain ⟨hempty, hseq, hbW, hbH⟩ := placeLoop_some s fuel rng xy rng₁ hpl
      set idStr := tag ++ toString (roleRefs s ρ).length with hid
      set s₁ : Env := { s with
          heap := setAgent s.heap s.nextRef ⟨idStr, ρ, xy, 1⟩,
          grid := setCell s.grid xy (Cell.agent s.nextRef),
          agents := s.agents ++ [s.nextRef],
          nextRef := s.nextRef + 1 } with hs₁
      have hfresh₁ : refsFresh s₁ := by
        intro r hr
        rcases List.mem_append.mp hr with hr | hr
        · exact Nat.lt_succ_of_lt (hfresh r hr)
        · have : r = s.nextRef := by simpa using hr
          rw [this]
          exact Nat.lt_succ_self _
      obtain ⟨i1, i2, i3, i4, i5, i6, i7⟩ := ih s₁ rng₁ fuel s' rng' h hfresh₁
      have hcnt : ∀ ρ', (roleRefs s₁ ρ').length =
          (roleRefs s ρ').length + (if ρ' = ρ then 1 else 0) := by
        intro ρ'
        show ((s.agents ++ [s.nextRef]).filter
          (fun q => ((setAgent s.heap s.nextRef ⟨idStr, ρ, xy, 1⟩ q).role == ρ'))).length = _
        rw [List.filter_append]
        have hcong : s.agents.filter
            (fun q => ((setAgent s.heap s.nextRef ⟨idStr, ρ, xy, 1⟩ q).role == ρ')) =
            s.agents.filter (fun q => ((s.heap q).role == ρ')) := by
          apply List.filter_congr
          intro q hq
          have hne : q ≠ s.nextRef := fun he => Nat.lt_irrefl _ (he ▸ hfresh q hq)
          unfold setAgent
          rw [if_neg hne]
        rw [hcong]
        rw [List.length_append]
        congr 1
        show (List.filter _ [s.nextRef]).length = _
        simp only [List.filter, setAgent, if_pos rfl]
        by_cases he : ρ' = ρ
        · subst he
          simp
        · have : (ρ == ρ') = false := by
            simp only [beq_eq_false_iff_ne, ne_eq]
            exact fun hc => he hc.symm
          simp [this, he]
      refine ⟨staticEq_trans i1 (staticEq_refl _), i2, ?_, ?_, ?_, ?_, ?_⟩
      · calc s.nextRef ≤ s₁.nextRef := Nat.le_succ _
          _ ≤ s'.nextRef := i3
      · intro ρ'
        rw [i4 ρ', hcnt ρ']
        by_cases he : ρ' = ρ <;> first | (simp [he]; omega) | simp [he]
      · rw [i5]
        show _ = s.agents.length + (k + 1)
        rw [show s₁.agents.length = s.agents.length + 1 from by simp [hs₁]]
        omega
      · intro r hr
        exact i6 r (List.mem_append.mpr (Or.inl hr))
      · intro hs hW hH
        have hsound₁ : sound s₁ :=
          spawnOne_sound ρ idStr xy hempty (hbW hW) (hbH hH) hfresh hs
        exact i7 hsound₁ (by rw [show s₁.gridSize = s.gridSize from rfl]; exact hW)
          (by rw [show s₁.gridSize = s.gridSize from rfl]; exact hH)

theorem generateNewAgents_spec (pPred pPrey : ℚ) (s : Env) (fuel : Nat) (rng : Rng)
    (s' : Env) (rng' : Rng)
    (h : generateNewAgents pPred pPrey s fuel rng = some (s', rng'))
    (hfresh : refsFresh s) :
    staticEq s' s ∧ refsFresh s' ∧
    predCount s' = predCount s +
      (if predCount s < s.maxNumPredators
        then max 1 (ceilQ (qMul (natToQ (predCount s)) pPred)) else 0) ∧
    preyCount s' = preyCount s +
      (if preyCount s < s.maxNumPreys
        then max 1 (ceilQ (qMul (natToQ (preyCount s)) pPrey)) else 0) ∧
    (∀ r ∈ s.agents, r ∈ s'.agents) ∧
    (sound s → 0 < s.gridSize.1 → 0 < s.gridSize.2 → sound s') := by
  unfold generateNewAgents at h
  dsimp only at h
  rcases hsp : spawnLoop Role.predator "pr_"
      (if predCount s < s.maxNumPredators
        then max 1 (ceilQ (qMul (natToQ (predCount s)) pPred)) else 0) s rng fuel
    with _ | sr₁
  · rw [hsp] at h; cases h
  · rcases sr₁ with ⟨s₁, rng₁⟩
    rw [hsp] at h
    dsimp only at h
    obtain ⟨p1, p2, p3, p4, p5, p6, p7⟩ :=
      spawnLoop_spec Role.predator "pr_" _ s rng fuel s₁ rng₁ hsp hfresh
    obtain ⟨q1, q2, q3, q4, q5, q6, q7⟩ :=
      spawnLoop_spec Role.prey "py_" _ s₁ rng₁ fuel s' rng' h p2
    have hpredcnt : predCount s' = predCount s +
        (if predCount s < s.maxNumPredators
          then max 1 (ceilQ (qMul (natToQ (predCount s)) pPred)) else 0) := by
      have h1 := q4 Role.predator
      have h2 := p4 Role.predator
      rw [if_neg (by decide)] at h1
      rw [if_pos rfl] at h2
      have e1 : predCount s' = (roleRefs s' Role.predator).length := rfl
      have e2 : predCount s = (roleRefs s Role.predator).length := rfl
      omega
    have hpreycnt : preyCount s' = preyCount s +
        (if preyCount s < s.maxNumPreys
          then max 1 (ceilQ (qMul (natToQ (preyCount s)) pPrey)) else 0) := by
      have h1 := q4 Role.prey
      have h2 := p4 Role.prey
      rw [if_pos rfl] at h1
      rw [if_neg (by decide)] at h2
      have e1 : preyCount s' = (roleRefs s' Role.prey).length := rfl
      have e2 : preyCount s = (roleRefs s Role.prey).length := rfl
      omega
    refine ⟨staticEq_trans q1 p1, q2, hpredcnt, hpreycnt, ?_, ?_⟩
    · intro r hr
      exact q6 r (p6 r hr)
    · intro hs hW hH
      have hgsz : s₁.gridSize = s.gridSize := p1.1
      exact q7 (p7 hs hW hH) (hgsz ▸ hW) (hgsz ▸ hH)

/-! ### Dict keys and the step orchestration -/

theorem dictSet_keys_mem {α : Type} (d : List (String × α)) (k : String) (v : α) (k' : String) :
    k' ∈ (dictSet d k v).map Prod.fst ↔ k' ∈ d.map Prod.fst ∨ k' = k := by
  by_cases hk : k ∈ d.map Prod.fst
  · rw [dictSet_keys_of_mem d k v hk]
    constructor
    · exact Or.inl
    · rintro (h | rfl)
      · exact h
      · exact hk
  · have hany : d.any (fun kv => kv.1 == k) = false := by
      rw [Bool.eq_false_iff]
      intro hc
      obtain ⟨kv, hkv, he⟩ := List.any_eq_true.mp hc
      exact hk (List.mem_map.mpr ⟨kv, hkv, by simpa using he⟩)
    unfold dictSet
    rw [if_neg (by simp [hany])]
    simp

theorem foldInit_keys {α : Type} (v₀ : α) (hp : Ref → AgentData) :
    ∀ (l : List Ref) (d : List (String × α)) (k : String),
    k ∈ (l.foldl (fun d r => dictSet d (hp r).id v₀) d).map Prod.fst ↔
      k ∈ d.map Prod.fst ∨ ∃ r ∈ l, (hp r).id = k := by
  intro l
  induction l with
  | nil => intro d k; simp
  | cons r₀ l ih =>
    intro d k
    simp only [List.foldl_cons]
    rw [ih]
    rw [dictSet_keys_mem]
    constructor
    · rintro ((h | h) | ⟨r, hr, hrk⟩)
      · exact Or.inl h
      · exact Or.inr ⟨r₀, List.mem_cons_self _ _, h.symm⟩
      · exact Or.inr ⟨r, List.mem_cons_of_mem _ hr, hrk⟩
    · rintro (h | ⟨r, hr, hrk⟩)
      · exact Or.inl (Or.inl h)
      · rcases List.mem_cons.mp hr with rfl | hr
        · exact Or.inl (Or.inr hrk.symm)
        · exact Or.inr ⟨r, hr, hrk⟩

theorem dictInit_keys {α : Type} (s : Env) (v₀ : α) (k : String) :
    k ∈ (dictInit s v₀).map Prod.fst ↔ ∃ r ∈ s.agents, (s.heap r).id = k := by
  unfold dictInit
  rw [foldInit_keys v₀ s.heap s.agents [] k]
  simp

theorem moveFold_idrole (np : List (String × (Nat × Nat))) :
    ∀ (l : List Ref) (t : Env) (r : Ref),
    ((l.foldl (moveStep np) t).heap r).id = (t.heap r).id ∧
    ((l.foldl (moveStep np) t).heap r).role = (t.heap r).role := by
  intro l
  induction l with
  | nil => exact fun t r => ⟨rfl, rfl⟩
  | cons x l ih =>
    intro t r
    simp only [List.foldl_cons]
    have hstep : ((moveStep np t x).heap r).id = (t.heap r).id ∧
        ((moveStep np t x).heap r).role = (t.heap r).role := by
      unfold moveStep setAgent
      dsimp only
      by_cases hr : r = x <;> simp [hr]
    exact ⟨(ih _ r).1.trans hstep.1, (ih _ r).2.trans hstep.2⟩

theorem hungerOne_heapid (s : Env) (dn : List (String × Bool)) (p r : Ref) :
    ((hungerOne (s, dn) p).1.heap r).id = (s.heap r).id := by
  have hid : ((addHealth s p (mkRat (-1) 100)).heap r).id = (s.heap r).id := by
    unfold addHealth setAgent
    dsimp only
    by_cases hr : r = p <;> simp [hr]
  unfold hungerOne
  dsimp only
  split
  · exact hid
  · exact hid

theorem hungerOne_keys (s : Env) (dn : List (String × Bool)) (p : Ref)
    (hk : (s.heap p).id ∈ dn.map Prod.fst) :
    (hungerOne (s, dn) p).2.map Prod.fst = dn.map Prod.fst := by
  unfold hungerOne
  dsimp only
  split
  · apply dictSet_keys_of_mem
    have hid : ((addHealth s p (mkRat (-1) 100)).heap p).id = (s.heap p).id := by
      unfold addHealth setAgent
      dsimp only
      simp
    rw [hid]
    exact hk
  · rfl

theorem hungerFold_keys : ∀ (l : List Ref) (s : Env) (dn : List (String × Bool)),
    (∀ p ∈ l, (s.heap p).id ∈ dn.map Prod.fst) →
    (l.foldl hungerOne (s, dn)).2.map Prod.fst = dn.map Prod.fst := by
  intro l
  induction l with
  | nil => intro s dn _; rfl
  | cons p l ih =>
    intro s dn hl
    rcases hone : hungerOne (s, dn) p with ⟨s', dn'⟩
    have hkeys : dn'.map Prod.fst = dn.map Prod.fst := by
      have := hungerOne_keys s dn p (hl p (List.mem_cons_self _ _))
      rw [hone] at this
      exact this
    have hids : ∀ r, (s'.heap r).id = (s.heap r).id := by
      intro r
      have := hungerOne_heapid s dn p r
      rw [hone] at this
      exact this
    simp only [List.foldl_cons, hone]
    rw [ih s' dn' ?_]
    · exact hkeys
    · intro q hq
      rw [hids q, hkeys]
      exact hl q (List.mem_cons_of_mem _ hq)

theorem step_spec (actions : String → Nat) (s : Env) (fuel : Nat) (rng : Rng)
    (obs : List (String × List (List (Nat × Nat × Nat × ℚ)))) (rw : List (String × Int))
    (dn : List (String × Bool)) (s' : Env) (rng' : Rng)
    (h : step actions s fuel rng = some (obs, rw, dn, s', rng')) :
    (∀ k, k ∈ rw.map Prod.fst ↔ ∃ r ∈ s.agents, (s.heap r).id = k) ∧
    (∀ k, k ∈ dn.map Prod.fst ↔ ∃ r ∈ s.agents, (s.heap r).id = k) ∧
    (consistent s → refsFresh s → 0 < s.gridSize.1 → 0 < s.gridSize.2 →
      (resolvedDests s actions).Nodup →
      sound s' ∧ consistent s' ∧ refsFresh s' ∧ staticEq s' s) := by
  unfold step at h
  dsimp only at h
  set rw₀ : List (String × Int) := dictInit s 0 with hrw₀
  set dn₀ : List (String × Bool) := dictInit s false with hdn₀
  set s₁ : Env := agentsMove actions s with hs₁
  set ht := hunting s₁ rw₀ dn₀ with hht
  set hg := predatorHunger ht.1 ht.2.2 with hhg
  rcases hga : generateNewAgents (mkRat 3 1000) (mkRat 6 1000) hg.1 fuel rng with _ | s₄r
  · rw [hga] at h
    cases h
  · rcases s₄r with ⟨s₄, rng₂⟩
    rw [hga] at h
    dsimp only at h
    rw [Option.some.injEq, Prod.mk.injEq] at h
    obtain ⟨hobs, h⟩ := h
    rw [Prod.mk.injEq] at h
    obtain ⟨hrw, h⟩ := h
    rw [Prod.mk.injEq] at h
    obtain ⟨hdn, h⟩ := h
    rw [Prod.mk.injEq] at h
    obtain ⟨hs', hrng'⟩ := h
    -- basic facts about the move phase
    have hagents₁ : s₁.agents = s.agents :=
      (moveFold_static (newPositions s actions) s.agents _).2.1
    have hnext₁ : s₁.nextRef = s.nextRef :=
      (moveFold_static (newPositions s actions) s.agents _).2.2
    have hstat₁ : staticEq s₁ s :=
      staticEq_trans (moveFold_static (newPositions s actions) s.agents _).1 (staticEq_refl _)
    have hid₁ : ∀ r, (s₁.heap r).id = (s.heap r).id := by
      intro r
      exact (moveFold_idrole (newPositions s actions) s.agents _ r).1
    have hrole₁ : ∀ r, (s₁.heap r).role = (s.heap r).role := by
      intro r
      exact (moveFold_idrole (newPositions s actions) s.agents _ r).2
    -- the hunting fold
    have htu : ht = (roleRefs s₁ Role.predator).foldl huntOne (s₁, rw₀, dn₀) := rfl
    obtain ⟨t1, t2, t3, t4, t5, t6, t7⟩ := huntFold_spec (roleRefs s₁ Role.predator) s₁ rw₀ dn₀
    rw [← htu] at t1 t2 t3 t4 t5 t6 t7
    have hkey₀ : ∀ q ∈ s.agents, (s.heap q).id ∈ rw₀.map Prod.fst := by
      intro q hq
      exact (dictInit_keys s (0 : Int) _).mpr ⟨q, hq, rfl⟩
    have hkeyd₀ : ∀ q ∈ s.agents, (s.heap q).id ∈ dn₀.map Prod.fst := by
      intro q hq
      exact (dictInit_keys s false _).mpr ⟨q, hq, rfl⟩
    obtain ⟨hkrw, hkdn⟩ := t7
      (fun q hq => by
        rw [hid₁ q]
        exact hkey₀ q (by rw [← hagents₁]; exact List.mem_of_mem_filter hq))
      (fun q hq => by
        rw [hid₁ q]
        exact hkey₀ q (by rw [← hagents₁]; exact hq))
      (fun q hq => by
        rw [hid₁ q]
        exact hkeyd₀ q (by rw [← hagents₁]; exact hq))
    -- the hunger fold keys
    have hgu : hg = (roleRefs ht.1 Role.predator).foldl hungerOne (ht.1, ht.2.2) := rfl
    have hkdn₂ : hg.2.map Prod.fst = ht.2.2.map Prod.fst := by
      rw [hgu]
      apply hungerFold_keys
      intro p hp
      rw [(t3 p).1, hid₁ p, hkdn]
      exact hkeyd₀ p (by rw [← hagents₁]; exact t4.mem (List.mem_of_mem_filter hp))
    refine ⟨?_, ?_, ?_⟩
    · intro k
      rw [← hrw, hkrw]
      rw [dictInit_keys s (0 : Int) k]
    · intro k
      rw [← hdn, hkdn₂, hkdn]
      rw [dictInit_keys s false k]
    · intro hcons hfresh hW hH hdd
      obtain ⟨hnd, hAc, _⟩ := hcons
      obtain ⟨m1, m2, m3, m4, m5, m6⟩ :=
        agentsMove_spec actions s hnd (fun r hr => (hAc r hr).1) hW hH hdd
      have hsound₁ : sound s₁ := m1
      have hfresh₁ : refsFresh s₁ := by
        intro r hr
        rw [hnext₁]
        exact hfresh r (by rw [← hagents₁]; exact hr)
      have hsound₂ : sound ht.1 := t6 hsound₁
      have hfresh₂ : refsFresh ht.1 := by
        intro r hr
        rw [t2, hnext₁]
        exact hfresh r (by rw [← hagents₁]; exact t4.mem hr)
      have hsnap : (roleRefs ht.1 Role.predator).Nodup := hsound₂.1.filter _
      have hsnapmem : ∀ p ∈ roleRefs ht.1 Role.predator, p ∈ ht.1.agents :=
        fun p hp => List.mem_of_mem_filter hp
      obtain ⟨u1, u2, u3, u4, u5, u6⟩ :=
        hungerFold_spec (roleRefs ht.1 Role.predator) ht.1 ht.2.2 hsnap hsnapmem
      rw [← hgu] at u1 u2 u3 u4 u5 u6
      have hsound₃ : sound hg.1 := u5 hsound₂
      have hfresh₃ : refsFresh hg.1 := by
        intro r hr
        rw [u2, t2, hnext₁]
        exact hfresh r (by rw [← hagents₁]; exact t4.mem (u4.mem hr))
      obtain ⟨g1, g2, g3, g4, g5, g6⟩ :=
        generateNewAgents_spec (mkRat 3 1000) (mkRat 6 1000) hg.1 fuel rng s₄ rng₂ hga hfresh₃
      have hstatic₃ : staticEq hg.1 s :=
        staticEq_trans u1 (staticEq_trans t1 hstat₁)
      have hW₃ : 0 < hg.1.gridSize.1 := by rw [hstatic₃.1]; exact hW
      have hH₃ : 0 < hg.1.gridSize.2 := by rw [hstatic₃.1]; exact hH
      have hsound₄ : sound s₄ := g6 hsound₃ hW₃ hH₃
      rw [← hs']
      exact ⟨hsound₄, sound_consistent hsound₄, g2, staticEq_trans g1 hstatic₃⟩

/-! ## Claim theorems (C1, C2, C3, C5, C6, C7, C9) -/

/-- C1: the claim as stated is false: starting from a consistent state,
two agents whose candidate destinations are the same snapshot-empty
cell both get it granted; after the full step the stale sibling has no
cell holding its reference and the occupied-cell count (3) differs
from the live-agent count (4). -/
theorem claim_C1_counterexample :
    consistent cexS₁ ∧ refsFresh cexS₁ ∧
    (step cexA₁ cexS₁ 3 cexR₁).map
      (fun t => (occupiedCount t.2.2.2.1, t.2.2.2.1.agents.length)) = some (3, 4) ∧
    (3 : Nat) ≠ 4 :=
  ⟨by decide, by decide, by decide, by decide⟩

/-- C1 (amended): if before the step the grid and registry are
consistent, the registry references are below the allocation counter,
the grid dimensions are positive and the destinations resolved by the
move phase are pairwise distinct, then after the step the grid and
registry are again consistent: every live agent is stored exactly at
its recorded position and the number of occupied non-wall cells equals
the number of live agents. -/
theorem claim_C1 (actions : String → Nat) (s : Env) (fuel : Nat) (rng : Rng)
    (hcons : consistent s) (hfresh : refsFresh s)
    (hW : 0 < s.gridSize.1) (hH : 0 < s.gridSize.2)
    (hdd : (resolvedDests s actions).Nodup) :
    optionHolds (fun t => consistent t.2.2.2.1 ∧ refsFresh t.2.2.2.1 ∧
      occupiedCount t.2.2.2.1 = t.2.2.2.1.agents.length)
      (step actions s fuel rng) := by
  rcases hstep : step actions s fuel rng with _ | t
  · trivial
  · rcases t with ⟨obs, rw, dn, s', rng'⟩
    obtain ⟨_, _, hc⟩ := step_spec actions s fuel rng obs rw dn s' rng' hstep
    obtain ⟨_, hcons', hfresh', _⟩ := hc hcons hfresh hW hH hdd
    exact ⟨hcons', hfresh', hcons'.2.2⟩

theorem claim_C1_witness :
    consistent witS₁ ∧ refsFresh witS₁ ∧ 0 < witS₁.gridSize.1 ∧ 0 < witS₁.gridSize.2 ∧
    (resolvedDests witS₁ witA₁).Nodup ∧ (step witA₁ witS₁ 2 witR₁).isSome ∧
    optionHolds (fun t => consistent t.2.2.2.1 ∧ refsFresh t.2.2.2.1 ∧
      occupiedCount t.2.2.2.1 = t.2.2.2.1.agents.length) (step witA₁ witS₁ 2 witR₁) :=
  ⟨by decide, by decide, by decide, by decide, by decide, by decide,
    claim_C1 witA₁ witS₁ 2 witR₁ (by decide) (by decide) (by decide) (by decide) (by decide)⟩

/-- C9: for every step call that returns, the keys of the rewards and
dones dicts are exactly the ids of the agents alive at tick start; in
particular no id first created by the spawn phase of the same tick
gains an entry. -/
theorem claim_C9 (actions : String → Nat) (s : Env) (fuel : Nat) (rng : Rng) :
    optionHolds (fun t =>
      (∀ k, k ∈ t.2.1.map Prod.fst ↔ ∃ r ∈ s.agents, (s.heap r).id = k) ∧
      (∀ k, k ∈ t.2.2.1.map Prod.fst ↔ ∃ r ∈ s.agents, (s.heap r).id = k))
      (step actions s fuel rng) := by
  rcases hstep : step actions s fuel rng with _ | t
  · trivial
  · rcases t with ⟨obs, rw, dn, s', rng'⟩
    obtain ⟨h1, h2, _⟩ := step_spec actions s fuel rng obs rw dn s' rng' hstep
    exact ⟨h1, h2⟩

/-- C6: in a tick, the prey count removed by the hunting phase (run on
the post-move state, as in step) is at most the predator count at tick
start; each single predator iteration removes at most one agent; and
registry removal is immediate, not deferred: a prey q that an earlier
predator p of the tick's hunting fold removed (present in the registry
just before p's iteration, absent just after) is absent from the
registry state seen by every later predator p' of the same fold, so
whatever prey p' removes is distinct from q. -/
theorem claim_C6 (actions : String → Nat) (s : Env) (rw : List (String × Int))
    (dn : List (String × Bool)) :
    preyCount s ≤ preyCount (hunting (agentsMove actions s) rw dn).1 + predCount s ∧
    (∀ (u : Env) (rw' : List (String × Int)) (dn' : List (String × Bool)) (p : Ref),
      u.agents.length ≤ (huntOne (u, rw', dn') p).1.agents.length + 1) ∧
    (∀ (l₁ : List Ref) (p : Ref) (l₂ : List Ref) (p' : Ref) (q : Ref),
      q ∈ (l₁.foldl huntOne (agentsMove actions s, rw, dn)).1.agents →
      q ∉ (huntOne (l₁.foldl huntOne (agentsMove actions s, rw, dn)) p).1.agents →
      q ∉ (l₂.foldl huntOne
            (huntOne (l₁.foldl huntOne (agentsMove actions s, rw, dn)) p)).1.agents ∧
      ∀ q', q' ∈ (l₂.foldl huntOne
            (huntOne (l₁.foldl huntOne (agentsMove actions s, rw, dn)) p)).1.agents →
        q' ∉ (huntOne (l₂.foldl huntOne
            (huntOne (l₁.foldl huntOne (agentsMove actions s, rw, dn)) p)) p').1.agents →
        q' ≠ q) := by
  refine ⟨?_, ?_, ?_⟩
  · set s₁ : Env := agentsMove actions s with hs₁
    have hagents₁ : s₁.agents = s.agents :=
      (moveFold_static (newPositions s actions) s.agents _).2.1
    have hrole₁ : ∀ r, (s₁.heap r).role = (s.heap r).role := by
      intro r
      exact (moveFold_idrole (newPositions s actions) s.agents _ r).2
    have hpc : ∀ ρ, (roleRefs s₁ ρ).length = (roleRefs s ρ).length := by
      intro ρ
      unfold roleRefs
      rw [hagents₁]
      congr 1
      apply List.filter_congr
      intro q _
      rw [hrole₁ q]
    obtain ⟨t1, t2, t3, t4, t5, t6, t7⟩ :=
      huntFold_spec (roleRefs s₁ Role.predator) s₁ rw dn
    have hunf : hunting s₁ rw dn = (roleRefs s₁ Role.predator).foldl huntOne (s₁, rw, dn) := rfl
    rw [hunf]
    set res := (roleRefs s₁ Role.predator).foldl huntOne (s₁, rw, dn) with hres
    have hcong : preyCount res.1 =
        (res.1.agents.countP (fun r => (s₁.heap r).role == Role.prey)) := by
      unfold preyCount roleRefs
      rw [← List.countP_eq_length_filter]
      apply List.countP_congr
      intro q _
      rw [(t3 q).2.1]
    have hb := sublist_countP_bound (fun r => (s₁.heap r).role == Role.prey) t4
    have hpc₁ : preyCount s₁ = s₁.agents.countP (fun r => (s₁.heap r).role == Role.prey) := by
      unfold preyCount roleRefs
      rw [← List.countP_eq_length_filter]
    have hpcs : preyCount s₁ = preyCount s := hpc Role.prey
    have hpds : (roleRefs s₁ Role.predator).length = predCount s := hpc Role.predator
    have hlen := t4.length_le
    omega
  · intro u rw' dn' p
    exact (huntOne_spec u rw' dn' p).2.2.2.2.1
  · intro l₁ p l₂ p' q hqA hqB
    have c4 := (huntFold_spec l₂
      (huntOne (l₁.foldl huntOne (agentsMove actions s, rw, dn)) p).1
      (huntOne (l₁.foldl huntOne (agentsMove actions s, rw, dn)) p).2.1
      (huntOne (l₁.foldl huntOne (agentsMove actions s, rw, dn)) p).2.2).2.2.2.1
    have hqC : q ∉ (l₂.foldl huntOne
        (huntOne (l₁.foldl huntOne (agentsMove actions s, rw, dn)) p)).1.agents :=
      fun hq => hqB (c4.mem hq)
    refine ⟨hqC, ?_⟩
    intro q' hq' hq'D he
    exact hqC (he ▸ hq')

theorem dictLast_map_of_nodup (l : List Ref) (I : Ref → String) (F : Ref → Nat × Nat)
    (hnd : (l.map I).Nodup) (r : Ref) (hr : r ∈ l) (dflt : Nat × Nat) :
    dictLast (l.map (fun x => (I x, F x))) (I r) dflt = F r := by
  unfold dictLast
  have hinj := List.inj_on_of_nodup_map hnd
  have hfind : (l.map (fun x => (I x, F x))).reverse.find?
      (fun kv => kv.1 == I r) = some (I r, F r) := by
    apply find?_unique
    · rw [List.mem_reverse]
      exact List.mem_map.mpr ⟨r, hr, rfl⟩
    · simp
    · intro kv hkv hkvk
      rw [List.mem_reverse] at hkv
      obtain ⟨x, hx, rfl⟩ := List.mem_map.mp hkv
      simp only [beq_iff_eq] at hkvk
      have hxr := hinj hx hr hkvk
      subst hxr
      rfl
  rw [hfind]
  rfl

/-- C2: under distinct registry entries and distinct ids, the position
an agent holds after agents_move is its action candidate when that
cell was empty in the pre-tick snapshot and its old position
otherwise; the candidate is computed by the wrapped arithmetic of the
candidate function, and the registry list itself is unchanged. -/
theorem claim_C2 (actions : String → Nat) (s : Env)
    (hnd : s.agents.Nodup)
    (hids : (s.agents.map (fun r => (s.heap r).id)).Nodup) :
    (∀ r ∈ s.agents,
      ((agentsMove actions s).heap r).pos =
        (if s.grid (candidate s (s.heap r).pos (actions (s.heap r).id)) = Cell.empty
         then candidate s (s.heap r).pos (actions (s.heap r).id)
         else (s.heap r).pos)) ∧
    (agentsMove actions s).agents = s.agents := by
  constructor
  · intro r hr
    have hkeep : ∀ x ∈ s.agents, ({ s with grid := wallsGrid s } : Env).heap x = s.heap x :=
      fun x _ => rfl
    have hproc := (moveFold_heap (newPositions s actions) s s.agents _ hnd hkeep).1 r hr
    have hpos : ((agentsMove actions s).heap r).pos =
        dictLast (newPositions s actions) (s.heap r).id (s.heap r).pos := by
      show ((s.agents.foldl (moveStep (newPositions s actions))
        { s with grid := wallsGrid s }).heap r).pos = _
      rw [hproc]
    rw [hpos]
    have hlast : dictLast (newPositions s actions) (s.heap r).id (s.heap r).pos =
        resolveDest s actions r :=
      dictLast_map_of_nodup s.agents (fun x => (s.heap x).id)
        (fun x => resolveDest s actions x) hids r hr (s.heap r).pos
    rw [hlast]
    rfl
  · exact (moveFold_static (newPositions s actions) s.agents _).2.1

theorem claim_C2_witness :
    witS₁.agents.Nodup ∧ (witS₁.agents.map (fun r => (witS₁.heap r).id)).Nodup ∧
    ((agentsMove witA₂ witS₁).heap 0).pos =
      (if witS₁.grid (candidate witS₁ (witS₁.heap 0).pos (witA₂ (witS₁.heap 0).id)) = Cell.empty
       then candidate witS₁ (witS₁.heap 0).pos (witA₂ (witS₁.heap 0).id)
       else (witS₁.heap 0).pos) :=
  ⟨by decide, by decide, (claim_C2 witA₂ witS₁ (by decide) (by decide)).1 0 (by decide)⟩

instance : IsTotal (Nat × Nat × Nat) tupLE :=
  ⟨by intro a b; unfold tupLE; omega⟩

instance : IsTrans (Nat × Nat × Nat) tupLE :=
  ⟨by intro a b c; unfold tupLE; omega⟩

theorem sortedHead_min {l : List (Nat × Nat × Nat)} {a : Nat × Nat × Nat}
    (h : (List.insertionSort tupLE l).head? = some a) :
    a ∈ l ∧ ∀ b ∈ l, tupLE a b := by
  have hperm := List.perm_insertionSort tupLE l
  have hsorted := List.sorted_insertionSort tupLE l
  match hs : List.insertionSort tupLE l with
  | [] => rw [hs] at h; cases h
  | x :: xs =>
    rw [hs] at h
    have hax : x = a := by simpa using h
    subst hax
    rw [hs] at hperm hsorted
    constructor
    · exact hperm.mem_iff.mp (List.mem_cons_self _ _)
    · intro b hb
      have hbmem : b ∈ x :: xs := hperm.mem_iff.mpr hb
      rcases List.mem_cons.mp hbmem with rfl | hb2
      · unfold tupLE
        omega
      · exact List.rel_of_sorted_cons hsorted b hb2

/-- C3 (amended): the selected entry of the hunt is a member of the
scanned prey list that is least in the lexicographic order on
(distance, x, y) - the order of the Python sort on
(distance, (nx, ny)) tuples - so ties in distance go to the smallest
wrapped position, not to the scan order; on the example of the claim
(predator (2,2), scope 1, prey (1,2) and (2,1)) the selected prey is
(1,2). -/
theorem claim_C3 :
    (∀ (s : Env) (px py d : Nat) (q : Nat × Nat),
      huntTarget s px py = some (d, q) →
      (d, q) ∈ preyInScope s px py ∧ ∀ e ∈ preyInScope s px py, tupLE (d, q) e) ∧
    huntTarget exS₃ 2 2 = some (1, 1, 2) := by
  constructor
  · intro s px py d q h
    exact sortedHead_min h
  · decide

/-- C3, the claim as stated is false: with the predator at (0,0) of a
5 x 5 grid and prey at (4,0) and (0,1), both at distance 1, the prey
first encountered in the scan order is (4,0) (offset dx = -1, dy = 0),
but the code selects (0,1), the lexicographically smaller position. -/
theorem claim_C3_counterexample :
    (huntTarget cexS₃ 0 0).map (fun e => e.2) = some (0, 1) ∧
    specScanFirst cexS₃ 0 0 = some (4, 0) ∧
    ((0, 1) : Nat × Nat) ≠ (4, 0) :=
  ⟨by decide, by decide, by decide⟩

theorem claim_C3_witness :
    ((1 : Nat), ((1 : Nat), (2 : Nat))) ∈ preyInScope exS₃ 2 2 ∧
    huntTarget exS₃ 2 2 = some (1, 1, 2) :=
  ⟨(claim_C3.1 exS₃ 2 2 1 (1, 2) (by decide)).1, claim_C3.2⟩

/-- C7, the claim as stated is false on non-square grids: on a 5 x 7
grid (grid_size[0] = 5, grid_size[1] = 7, i.e. width 5 and height 7 in
the W x H reading of the spec data model) an agent at (0,0) given
action 1 (up) lands at (4,0) = (width-1, 0), not at
(height-1, 0) = (6,0): the up/down wrap is modulo grid_size[0]. -/
theorem claim_C7_counterexample :
    ((agentsMove cexA₇ cexS₇).heap 0).pos = (4, 0) ∧
    cexS₇.gridSize.2 - 1 = 6 ∧ (((4 : Nat), (0 : Nat))) ≠ ((6 : Nat), (0 : Nat)) :=
  ⟨by decide, by decide, by decide⟩

/-- C7 (amended): the candidate destination for action up from (0, y)
is (grid_size[0] - 1, y) and for action down from (grid_size[0] - 1, y)
it is (0, y): the toroidal wrap of the vertical moves is modulo the
first grid dimension (the width W in the W x H reading of the spec), so
the claim holds with width in place of height. -/
theorem claim_C7 (s : Env) (y : Nat) (hW : 0 < s.gridSize.1) :
    candidate s (0, y) 1 = (s.gridSize.1 - 1, y) ∧
    candidate s (s.gridSize.1 - 1, y) 2 = (0, y) := by
  have hW1 : (1 : Int) ≤ (s.gridSize.1 : Int) := by exact_mod_cast hW
  constructor
  · unfold candidate
    rw [if_pos rfl]
    have h1 : ((((0 : Nat), y).1 : Int) - 1) = (-1 : Int) := by norm_num
    rw [h1]
    have h2 : ((-1 : Int) % (s.gridSize.1 : Int)) = (s.gridSize.1 : Int) - 1 := by
      have h3 := Int.add_mul_emod_self_left (a := (-1 : Int)) (b := (s.gridSize.1 : Int)) (c := 1)
      have h4 : ((-1 : Int) + (s.gridSize.1 : Int) * 1) = (s.gridSize.1 : Int) - 1 := by ring
      rw [h4] at h3
      rw [← h3]
      exact Int.emod_eq_of_lt (by omega) (by omega)
    unfold pymod
    rw [h2]
    have h5 : ((s.gridSize.1 : Int) - 1).toNat = s.gridSize.1 - 1 := by omega
    rw [h5]
  · unfold candidate
    rw [if_neg (by norm_num), if_pos rfl]
    have h1 : (((s.gridSize.1 - 1, y).1 : Int) + 1) = (s.gridSize.1 : Int) := by
      show ((s.gridSize.1 - 1 : Nat) : Int) + 1 = _
      omega
    rw [h1]
    unfold pymod
    rw [Int.emod_self]
    rfl

theorem claim_C7_witness :
    0 < cexS₇.gridSize.1 ∧
    candidate cexS₇ (0, 3) 1 = (cexS₇.gridSize.1 - 1, 3) ∧
    candidate cexS₇ (cexS₇.gridSize.1 - 1, 3) 2 = (0, 3) :=
  ⟨by decide, (claim_C7 cexS₇ 3 (by decide)).1, (claim_C7 cexS₇ 3 (by decide)).2⟩

theorem placeLoop_none_of_gridsize_one (s : Env) (h11 : s.gridSize = (1, 1))
    (h00 : s.grid (0, 0) ≠ Cell.empty) : ∀ (fuel : Nat) (rng : Rng),
    placeLoop s fuel rng = none := by
  intro fuel
  induction fuel with
  | zero => intro rng; rfl
  | succ fuel ih =>
    intro rng
    unfold placeLoop
    dsimp only
    rw [show Rng.draw rng s.gridSize = ((0, 0), ⟨rng.seq, rng.idx + 1⟩) from by
      unfold Rng.draw
      rw [h11]
      simp [Nat.mod_one]]
    dsimp only
    rw [if_neg h00]
    exact ih _

/-- C5: the claim describes the intended behaviour, but the source has
no attempt bound and no PlacementExhausted error: its rejection
sampling is an unbounded while-True loop.  On a 1 x 1 environment with
one wall and one predator the wall fills the grid and the predator
placement loop can never exit: reset diverges, returning within no
finite number of attempts, whatever the random stream. -/
theorem claim_C5 : ∀ (fuel : Nat) (rng : Rng), reset cexE₅ fuel rng = none := by
  intro fuel rng
  rcases fuel with _ | fuel
  · rfl
  · have hreset : reset cexE₅ (fuel + 1) rng =
        (match placeWalls 1 { cexE₅ with grid := fun _ => Cell.empty, walls := [] }
            rng (fuel + 1) with
         | none => none
         | some (s₁, rng₁) =>
           match placeInitAgents Role.predator "pr_" 0 1 s₁ rng₁ (fuel + 1) with
           | none => none
           | some (s₂, rng₂) => placeInitAgents Role.prey "py_" 0 0 s₂ rng₂ (fuel + 1)) := rfl
    set s₀ : Env := { cexE₅ with grid := fun _ => Cell.empty, walls := [] } with hs₀
    have hdraw : Rng.draw rng s₀.gridSize = ((0, 0), ⟨rng.seq, rng.idx + 1⟩) := by
      show Rng.draw rng (1, 1) = _
      unfold Rng.draw
      simp [Nat.mod_one]
    have hpl : placeLoop s₀ (fuel + 1) rng = some ((0, 0), ⟨rng.seq, rng.idx + 1⟩) := by
      unfold placeLoop
      dsimp only
      rw [hdraw]
      dsimp only
      rw [if_pos rfl]
    have hpw : placeWalls 1 s₀ rng (fuel + 1) =
        some ({ s₀ with grid := setCell s₀.grid (0, 0) Cell.wall,
                        walls := s₀.walls ++ [(0, 0)] }, ⟨rng.seq, rng.idx + 1⟩) := by
      unfold placeWalls
      rw [hpl]
      rfl
    set s₁ : Env := { s₀ with grid := setCell s₀.grid (0, 0) Cell.wall,
                              walls := s₀.walls ++ [(0, 0)] } with hs₁
    have hpa : placeInitAgents Role.predator "pr_" 0 1 s₁ ⟨rng.seq, rng.idx + 1⟩
        (fuel + 1) = none := by
      unfold placeInitAgents
      rw [placeLoop_none_of_gridsize_one s₁ rfl (by simp [hs₁, setCell])]
    rw [hreset, hpw]
    dsimp only
    rw [hpa]

/-! ## Claim theorems (C4, C10) -/

theorem spawnLoop_succeeds (ρ : Role) (tag : String) : ∀ (k : Nat) (s : Env) (rng : Rng),
    (∀ i, i < k → s.grid (drawCellAt s.gridSize rng i) = Cell.empty) →
    (∀ i j, i < k → j < k → i ≠ j →
      drawCellAt s.gridSize rng i ≠ drawCellAt s.gridSize rng j) →
    ∃ s', spawnLoop ρ tag k s rng 1 = some (s', ⟨rng.seq, rng.idx + k⟩) ∧
      s'.gridSize = s.gridSize ∧
      (∀ q, (∀ i, i < k → q ≠ drawCellAt s.gridSize rng i) → s'.grid q = s.grid q) := by
  intro k
  induction k with
  | zero =>
    intro s rng _ _
    exact ⟨s, rfl, rfl, fun q _ => rfl⟩
  | succ k ih =>
    intro s rng hempty hdist
    have hcell0 : Rng.draw rng s.gridSize =
        (drawCellAt s.gridSize rng 0, ⟨rng.seq, rng.idx + 1⟩) := rfl
    have hpl : placeLoop s 1 rng =
        some (drawCellAt s.gridSize rng 0, ⟨rng.seq, rng.idx + 1⟩) := by
      unfold placeLoop
      dsimp only
      rw [hcell0]
      dsimp only
      rw [if_pos (hempty 0 (Nat.succ_pos k))]
    set s₁ : Env := { s with
        heap := setAgent s.heap s.nextRef
          ⟨tag ++ toString (roleRefs s ρ).length, ρ, drawCellAt s.gridSize rng 0, 1⟩,
        grid := setCell s.grid (drawCellAt s.gridSize rng 0) (Cell.agent s.nextRef),
        agents := s.agents ++ [s.nextRef],
        nextRef := s.nextRef + 1 } with hs₁
    have hunf : spawnLoop ρ tag (k + 1) s rng 1 =
        spawnLoop ρ tag k s₁ ⟨rng.seq, rng.idx + 1⟩ 1 := by
      conv_lhs => rw [spawnLoop.eq_def]
      dsimp only
      rw [hpl]
    have hshift : ∀ i, drawCellAt s.gridSize ⟨rng.seq, rng.idx + 1⟩ i =
        drawCellAt s.gridSize rng (i + 1) := by
      intro i
      unfold drawCellAt
      dsimp only
      rw [Nat.add_assoc, Nat.add_comm 1 i]
    have hgsz₁ : s₁.gridSize = s.gridSize := rfl
    have hempty' : ∀ i, i < k →
        s₁.grid (drawCellAt s₁.gridSize ⟨rng.seq, rng.idx + 1⟩ i) = Cell.empty := by
      intro i hi
      rw [hgsz₁, hshift i]
      show setCell s.grid (drawCellAt s.gridSize rng 0) (Cell.agent s.nextRef) _ = _
      unfold setCell
      rw [if_neg (hdist (i + 1) 0 (by omega) (by omega) (by omega))]
      exact hempty (i + 1) (by omega)
    have hdist' : ∀ i j, i < k → j < k → i ≠ j →
        drawCellAt s₁.gridSize ⟨rng.seq, rng.idx + 1⟩ i ≠
          drawCellAt s₁.gridSize ⟨rng.seq, rng.idx + 1⟩ j := by
      intro i j hi hj hne
      rw [hgsz₁, hshift i, hshift j]
      exact hdist (i + 1) (j + 1) (by omega) (by omega) (by omega)
    obtain ⟨s', hsp, hgsz, hframe⟩ := ih s₁ ⟨rng.seq, rng.idx + 1⟩ hempty' hdist'
    refine ⟨s', ?_, hgsz.trans hgsz₁, ?_⟩
    · rw [hunf, hsp]
      have hidx : rng.idx + 1 + k = rng.idx + (k + 1) := by omega
      rw [hidx]
    · intro q hq
      have h1 := hframe q (fun i hi => by
        rw [hgsz₁, hshift i]
        exact hq (i + 1) (by omega))
      rw [h1]
      show setCell s.grid (drawCellAt s.gridSize rng 0) (Cell.agent s.nextRef) q = s.grid q
      unfold setCell
      rw [if_neg (hq 0 (Nat.succ_pos k))]

/-- C4 (amended): a successful spawn phase adds to each role exactly
(if its pre-spawn count is below its cap then max(1, ceil(count * p))
else 0) new agents of that role: in particular nothing spawns for a
role at or above its cap, but a spawn from just below the cap may
overshoot it by up to the batch size. -/
theorem claim_C4 (pPred pPrey : ℚ) (s : Env) (fuel : Nat) (rng : Rng)
    (hfresh : refsFresh s) :
    optionHolds (fun t =>
      predCount t.1 = predCount s +
        (if predCount s < s.maxNumPredators
          then max 1 (ceilQ (qMul (natToQ (predCount s)) pPred)) else 0) ∧
      preyCount t.1 = preyCount s +
        (if preyCount s < s.maxNumPreys
          then max 1 (ceilQ (qMul (natToQ (preyCount s)) pPrey)) else 0))
      (generateNewAgents pPred pPrey s fuel rng) := by
  rcases hg : generateNewAgents pPred pPrey s fuel rng with _ | t
  · trivial
  · rcases t with ⟨s', rng'⟩
    obtain ⟨_, _, h3, h4, _, _⟩ := generateNewAgents_spec pPred pPrey s fuel rng s' rng' hg hfresh
    exact ⟨h3, h4⟩

theorem claim_C4_witness :
    refsFresh witS₄ ∧
    (generateNewAgents (mkRat 3 1000) (mkRat 6 1000) witS₄ 1 witR₄).isSome ∧
    optionHolds (fun t =>
      predCount t.1 = predCount witS₄ +
        (if predCount witS₄ < witS₄.maxNumPredators
          then max 1 (ceilQ (qMul (natToQ (predCount witS₄)) (mkRat 3 1000))) else 0) ∧
      preyCount t.1 = preyCount witS₄ +
        (if preyCount witS₄ < witS₄.maxNumPreys
          then max 1 (ceilQ (qMul (natToQ (preyCount witS₄)) (mkRat 6 1000))) else 0))
      (generateNewAgents (mkRat 3 1000) (mkRat 6 1000) witS₄ 1 witR₄) :=
  ⟨by decide, by decide,
    claim_C4 (mkRat 3 1000) (mkRat 6 1000) witS₄ 1 witR₄ (by decide)⟩

/-- C4, the claim as stated is false: a registry of 9999 predators is
below the configured cap of 10000, so the spawn batch is
max(1, ceil(9999 * 0.003)) = 30 predators, and the post-spawn predator
count 10029 exceeds the cap. -/
theorem claim_C4_counterexample :
    predCount cexS₄ = 9999 ∧ cexS₄.maxNumPredators = 10000 ∧ refsFresh cexS₄ ∧
    (generateNewAgents (mkRat 3 1000) (mkRat 6 1000) cexS₄ 1 cexR₄).map
      (fun t => predCount t.1) = some 10029 ∧
    ¬ (10029 ≤ 10000) := by
  have hagents : cexS₄.agents = List.range 9999 := by
    unfold cexS₄
    dsimp only
  have hpred : predCount cexS₄ = 9999 := by
    have hfil : roleRefs cexS₄ Role.predator = cexS₄.agents :=
      List.filter_eq_self.mpr (fun a _ => rfl)
    unfold predCount
    rw [hfil, hagents]
    exact List.length_range 9999
  have hprey : preyCount cexS₄ = 0 := by
    have hfil : roleRefs cexS₄ Role.prey = [] := by
      unfold roleRefs
      rw [List.filter_eq_nil_iff]
      intro a _
      exact fun h => nomatch h
    unfold preyCount
    rw [hfil]
    rfl
  have hfresh : refsFresh cexS₄ := by
    intro r hr
    rw [hagents] at hr
    exact List.mem_range.mp hr
  have hd30 : ∀ i, i < 30 → cexS₄.grid (drawCellAt cexS₄.gridSize cexR₄ i) = Cell.empty :=
    fun i _ => rfl
  have hdball : ∀ i, i < 30 → ∀ j, j < 30 → i ≠ j →
      drawCellAt cexS₄.gridSize cexR₄ i ≠ drawCellAt cexS₄.gridSize cexR₄ j := by decide
  have hdist30 : ∀ i j, i < 30 → j < 30 → i ≠ j →
      drawCellAt cexS₄.gridSize cexR₄ i ≠ drawCellAt cexS₄.gridSize cexR₄ j :=
    fun i j hi hj hne => hdball i hi j hj hne
  obtain ⟨s₁, hsp1, hgsz1, hframe1⟩ :=
    spawnLoop_succeeds Role.predator "pr_" 30 cexS₄ cexR₄ hd30 hdist30
  have hd1 : ∀ i, i < 1 →
      s₁.grid (drawCellAt s₁.gridSize ⟨cexR₄.seq, cexR₄.idx + 30⟩ i) = Cell.empty := by
    intro i hi
    have hi0 : i = 0 := by omega
    subst hi0
    rw [hgsz1]
    rw [show drawCellAt cexS₄.gridSize ⟨cexR₄.seq, cexR₄.idx + 30⟩ 0 = (10030, 1) from by decide]
    rw [hframe1 (10030, 1) (by decide)]
    rfl
  have hdist1 : ∀ i j, i < 1 → j < 1 → i ≠ j →
      drawCellAt s₁.gridSize ⟨cexR₄.seq, cexR₄.idx + 30⟩ i ≠
        drawCellAt s₁.gridSize ⟨cexR₄.seq, cexR₄.idx + 30⟩ j := by
    intro i j hi hj hne
    exact absurd (by omega : i = j) hne
  obtain ⟨s₂, hsp2, _, _⟩ :=
    spawnLoop_succeeds Role.prey "py_" 1 s₁ ⟨cexR₄.seq, cexR₄.idx + 30⟩ hd1 hdist1
  have hgen : generateNewAgents (mkRat 3 1000) (mkRat 6 1000) cexS₄ 1 cexR₄ =
      some (s₂, ⟨cexR₄.seq, cexR₄.idx + 30 + 1⟩) := by
    unfold generateNewAgents
    dsimp only
    rw [hpred, hprey]
    rw [if_pos (by decide), if_pos (by decide)]
    rw [show max 1 (ceilQ (qMul (natToQ 9999) (mkRat 3 1000))) = 30 from by decide]
    rw [show max 1 (ceilQ (qMul (natToQ 0) (mkRat 6 1000))) = 1 from by decide]
    rw [hsp1]
    dsimp only
    exact hsp2
  refine ⟨hpred, rfl, hfresh, ?_, by omega⟩
  obtain ⟨_, _, h3, _, _, _⟩ := generateNewAgents_spec (mkRat 3 1000) (mkRat 6 1000)
    cexS₄ 1 cexR₄ s₂ ⟨cexR₄.seq, cexR₄.idx + 30 + 1⟩ hgen hfresh
  have hcount : predCount s₂ = 10029 := by
    rw [h3, hpred]
    rw [if_pos (by decide)]
    rw [show max 1 (ceilQ (qMul (natToQ 9999) (mkRat 3 1000))) = 30 from by decide]
  rw [hgen]
  show some (predCount s₂) = some 10029
  rw [hcount]

/-- C10: if a role has no live agents and its cap is positive, a
successful spawn phase creates exactly one agent of that role. -/
theorem claim_C10 (pPred pPrey : ℚ) (s : Env) (fuel : Nat) (rng : Rng)
    (hfresh : refsFresh s) (hmaxP : 0 < s.maxNumPredators) (hmaxQ : 0 < s.maxNumPreys) :
    optionHolds (fun t =>
      (predCount s = 0 → predCount t.1 = 1) ∧
      (preyCount s = 0 → preyCount t.1 = 1))
      (generateNewAgents pPred pPrey s fuel rng) := by
  rcases hg : generateNewAgents pPred pPrey s fuel rng with _ | t
  · trivial
  · rcases t with ⟨s', rng'⟩
    obtain ⟨_, _, h3, h4, _, _⟩ := generateNewAgents_spec pPred pPrey s fuel rng s' rng' hg hfresh
    constructor
    · intro h0
      rw [h3, h0]
      rw [if_pos (by omega)]
      have hq0 : qMul (natToQ 0) pPred = 0 := by
        rw [qMul_eq, natToQ_eq]
        push_cast
        ring
      rw [hq0]
      rfl
    · intro h0
      rw [h4, h0]
      rw [if_pos (by omega)]
      have hq0 : qMul (natToQ 0) pPrey = 0 := by
        rw [qMul_eq, natToQ_eq]
        push_cast
        ring
      rw [hq0]
      rfl

theorem claim_C10_witness :
    refsFresh witS₁₀ ∧ 0 < witS₁₀.maxNumPredators ∧ 0 < witS₁₀.maxNumPreys ∧
    predCount witS₁₀ = 0 ∧ preyCount witS₁₀ = 0 ∧
    (generateNewAgents (mkRat 3 1000) (mkRat 6 1000) witS₁₀ 1 witR₁₀).isSome ∧
    optionHolds (fun t => (predCount witS₁₀ = 0 → predCount t.1 = 1) ∧
      (preyCount witS₁₀ = 0 → preyCount t.1 = 1))
      (generateNewAgents (mkRat 3 1000) (mkRat 6 1000) witS₁₀ 1 witR₁₀) :=
  ⟨by decide, by decide, by decide, by decide, by decide, by decide,
    claim_C10 (mkRat 3 1000) (mkRat 6 1000) witS₁₀ 1 witR₁₀ (by decide) (by decide) (by decide)⟩


/-! ### Wall preservation: phase lemmas -/

theorem destOf_not_wall (s : Env) (actions : String → Nat) (r : Ref)
    (hr : r ∈ s.agents) (hw : wallsOk s) :
    destOf s actions r ∉ s.walls := by
  unfold destOf
  have hex : ∃ kv ∈ newPositions s actions, kv.1 = (s.heap r).id :=
    ⟨((s.heap r).id, resolveDest s actions r), List.mem_map.mpr ⟨r, hr, rfl⟩, rfl⟩
  obtain ⟨kv, hkv, hkey, heq⟩ := dictLast_mem _ hex
  rw [heq]
  obtain ⟨x, hx, rfl⟩ := List.mem_map.mp hkv
  show resolveDest s actions x ∉ s.walls
  unfold resolveDest
  dsimp only
  split
  · rename_i hemp
    intro hmem
    have hc := (hw.1 _).mp hmem
    rw [hemp] at hc
    cases hc
  · exact hw.2 x hx

theorem moveFold_wall_back (np : List (String × (Nat × Nat))) :
    ∀ (l : List Ref) (t : Env) (q : Nat × Nat),
      (l.foldl (moveStep np) t).grid q = Cell.wall → t.grid q = Cell.wall := by
  intro l
  induction l with
  | nil => exact fun t q h => h
  | cons r₀ l ih =>
    intro t q h
    simp only [List.foldl_cons] at h
    have h1 := ih (moveStep np t r₀) q h
    rw [moveStep_def] at h1
    dsimp only at h1
    unfold setCell at h1
    split at h1
    · cases h1
    · exact h1

theorem agentsMove_agents (actions : String → Nat) (s : Env) :
    (agentsMove actions s).agents = s.agents ∧ (agentsMove actions s).nextRef = s.nextRef ∧
    staticEq (agentsMove actions s) s := by
  obtain ⟨h1, h2, h3⟩ := moveFold_static (newPositions s actions) s.agents
    { s with grid := wallsGrid s }
  exact ⟨h2, h3, staticEq_trans h1 (staticEq_refl _)⟩

theorem agentsMove_walls (actions : String → Nat) (s : Env)
    (hnd : s.agents.Nodup) (hw : wallsOk s) :
    (agentsMove actions s).walls = s.walls ∧ wallsOk (agentsMove actions s) := by
  have hunf : agentsMove actions s =
      s.agents.foldl (moveStep (newPositions s actions)) { s with grid := wallsGrid s } := rfl
  set np := newPositions s actions with hnp
  set base : Env := { s with grid := wallsGrid s } with hbase
  have hkeep : ∀ r ∈ s.agents, base.heap r = s.heap r := fun r _ => rfl
  obtain ⟨hstat, hagents, hnext⟩ := moveFold_static np s.agents base
  obtain ⟨hproc, hunproc⟩ := moveFold_heap np s s.agents base hnd hkeep
  obtain ⟨hgu, hgi⟩ := moveFold_grid np s s.agents base hnd hkeep
  have hdestOf : ∀ r, destOf s actions r = dictLast np (s.heap r).id (s.heap r).pos :=
    fun r => rfl
  rw [hunf]
  set res := s.agents.foldl (moveStep np) base with hres
  have hwalls : res.walls = s.walls := hstat.2.2.2.2.2.1
  refine ⟨hwalls, ?_, ?_⟩
  · intro p
    rw [hwalls]
    constructor
    · intro hmem
      have havoid : ∀ r ∈ s.agents, p ≠ dictLast np (s.heap r).id (s.heap r).pos := by
        intro r hr he
        refine destOf_not_wall s actions r hr hw ?_
        rw [hdestOf r, ← he]
        exact hmem
      rw [hgu p havoid]
      show wallsGrid s p = Cell.wall
      rw [wallsGrid_eq, if_pos hmem]
    · intro hwall
      have hbw : base.grid p = Cell.wall := moveFold_wall_back np s.agents base p hwall
      have hwg : wallsGrid s p = Cell.wall := hbw
      rw [wallsGrid_eq] at hwg
      by_cases hp : p ∈ s.walls
      · exact hp
      · rw [if_neg hp] at hwg
        cases hwg
  · intro r hr
    rw [hagents] at hr
    rw [hwalls]
    rw [hproc r hr]
    dsimp only
    rw [← hdestOf r]
    exact destOf_not_wall s actions r hr hw

theorem addHealth_walls (s : Env) (r : Ref) (v : ℚ) (hw : wallsOk s) :
    wallsOk (addHealth s r v) := by
  obtain ⟨h1, h2⟩ := hw
  refine ⟨h1, ?_⟩
  intro x hx
  show ((setAgent s.heap r { s.heap r with health := qAdd (s.heap r).health v }) x).pos ∉ s.walls
  unfold setAgent
  by_cases hxr : x = r
  · rw [if_pos hxr]
    dsimp only
    subst hxr
    exact h2 x hx
  · rw [if_neg hxr]
    exact h2 x hx

theorem clearCell_walls (s : Env) (c : Nat × Nat) (hcw : c ∉ s.walls) (x : Ref)
    (hw : wallsOk s) :
    wallsOk { s with agents := s.agents.erase x, grid := setCell s.grid c Cell.empty } := by
  obtain ⟨h1, h2⟩ := hw
  refine ⟨?_, ?_⟩
  · intro p
    show p ∈ s.walls ↔ setCell s.grid c Cell.empty p = Cell.wall
    unfold setCell
    by_cases hp : p = c
    · rw [if_pos hp]
      subst hp
      constructor
      · intro hm
        exact absurd hm hcw
      · intro hc
        cases hc
    · rw [if_neg hp]
      exact h1 p
  · intro r hr
    exact h2 r (List.mem_of_mem_erase hr)

theorem mem_preyInScope_grid (s : Env) (px py : Nat) (t : Nat × Nat × Nat)
    (h : t ∈ preyInScope s px py) : ∃ q, s.grid t.2 = Cell.agent q := by
  unfold preyInScope at h
  obtain ⟨d, _, hd⟩ := List.mem_filterMap.mp h
  by_cases h0 : d = (0, 0)
  · rw [if_pos h0] at hd
    cases hd
  · rw [if_neg h0] at hd
    dsimp only at hd
    rcases hg : s.grid (pymod ((px : Int) + d.1) s.gridSize.1,
        pymod ((py : Int) + d.2) s.gridSize.2) with _ | _ | q
    · rw [hg] at hd
      cases hd
    · rw [hg] at hd
      cases hd
    · rw [hg] at hd
      dsimp only at hd
      split at hd
      · rw [Option.some.injEq] at hd
        subst hd
        exact ⟨q, hg⟩
      · cases hd

theorem huntTarget_cell (s : Env) (px py : Nat) (t : Nat × Nat × Nat)
    (h : huntTarget s px py = some t) : ∃ q, s.grid t.2 = Cell.agent q := by
  unfold huntTarget at h
  rcases hl : List.insertionSort tupLE (preyInScope s px py) with _ | ⟨a, l⟩
  · rw [hl] at h
    cases h
  · rw [hl] at h
    have hat : a = t := by simpa using h
    have hmem : t ∈ List.insertionSort tupLE (preyInScope s px py) := by
      rw [hl]
      exact hat ▸ List.mem_cons_self a l
    have hmem2 : t ∈ preyInScope s px py :=
      (List.perm_insertionSort tupLE (preyInScope s px py)).mem_iff.mp hmem
    exact mem_preyInScope_grid s px py t hmem2

theorem huntOne_walls (s : Env) (rw : List (String × Int)) (dn : List (String × Bool))
    (p : Ref) (hw : wallsOk s) : wallsOk (huntOne (s, rw, dn) p).1 := by
  rcases h1 : huntTarget s (s.heap p).pos.1 (s.heap p).pos.2 with _ | t
  · unfold huntOne
    dsimp only
    rw [h1]
    exact hw
  · rcases h2 : s.agents.find? (fun q => (s.heap q).pos == t.2) with _ | prey
    · unfold huntOne
      dsimp only
      rw [h1]
      dsimp only
      rw [h2]
      exact hw
    · obtain ⟨q₀, hq₀⟩ := huntTarget_cell s _ _ t h1
      have htnw : t.2 ∉ s.walls := by
        intro hmem
        have hc := (hw.1 _).mp hmem
        rw [hq₀] at hc
        cases hc
      unfold huntOne
      dsimp only
      rw [h1]
      dsimp only
      rw [h2]
      dsimp only
      exact addHealth_walls _ p _ (clearCell_walls s t.2 htnw prey hw)

theorem huntFold_walls : ∀ (l : List Ref) (s : Env) (rw : List (String × Int))
    (dn : List (String × Bool)), wallsOk s →
    wallsOk (l.foldl huntOne (s, rw, dn)).1 := by
  intro l
  induction l with
  | nil => exact fun s rw dn hw => hw
  | cons p l ih =>
    intro s rw dn hw
    rcases hone : huntOne (s, rw, dn) p with ⟨s', rw', dn'⟩
    have hw' : wallsOk s' := by
      have h := huntOne_walls s rw dn p hw
      rw [hone] at h
      exact h
    simp only [List.foldl_cons, hone]
    exact ih s' rw' dn' hw'

theorem hungerOne_walls (s : Env) (dn : List (String × Bool)) (p : Ref)
    (hp : p ∈ s.agents) (hw : wallsOk s) : wallsOk (hungerOne (s, dn) p).1 := by
  unfold hungerOne
  dsimp only
  split
  · refine clearCell_walls (addHealth s p (mkRat (-1) 100)) _ ?_ p (addHealth_walls s p _ hw)
    have hpos : ((addHealth s p (mkRat (-1) 100)).heap p).pos = (s.heap p).pos := by
      unfold addHealth setAgent
      dsimp only
      rw [if_pos rfl]
    show ((addHealth s p (mkRat (-1) 100)).heap p).pos ∉ s.walls
    rw [hpos]
    exact hw.2 p hp
  · exact addHealth_walls s p _ hw

theorem hungerFold_walls : ∀ (l : List Ref) (s : Env) (dn : List (String × Bool)),
    l.Nodup → (∀ p ∈ l, p ∈ s.agents) → wallsOk s →
    wallsOk (l.foldl hungerOne (s, dn)).1 := by
  intro l
  induction l with
  | nil => exact fun s dn _ _ hw => hw
  | cons p l ih =>
    intro s dn hnd hl hw
    obtain ⟨o1, o2, o3, o4, o5, o6, o7⟩ := hungerOne_spec s dn p (hl p (List.mem_cons_self _ _))
    rcases hone : hungerOne (s, dn) p with ⟨s', dn'⟩
    rw [hone] at o5
    dsimp only at o5
    have hnotin : p ∉ l := (List.nodup_cons.mp hnd).1
    have hl' : ∀ q ∈ l, q ∈ s'.agents := fun q hq =>
      o5 q (hl q (List.mem_cons_of_mem _ hq)) (fun he => hnotin (he ▸ hq))
    have hw' : wallsOk s' := by
      have h := hungerOne_walls s dn p (hl p (List.mem_cons_self _ _)) hw
      rw [hone] at h
      exact h
    simp only [List.foldl_cons, hone]
    exact ih s' dn' (List.nodup_cons.mp hnd).2 hl' hw'

theorem spawnLoop_winv (ρ : Role) (tag : String) : ∀ (k : Nat) (s : Env) (rng : Rng)
    (fuel : Nat) (s' : Env) (rng' : Rng),
    spawnLoop ρ tag k s rng fuel = some (s', rng') → refsFresh s →
    (wallsOk s → wallsOk s') ∧ (s.agents.Nodup → s'.agents.Nodup) := by
  intro k
  induction k with
  | zero =>
    intro s rng fuel s' rng' h hfresh
    unfold spawnLoop at h
    rw [Option.some.injEq, Prod.mk.injEq] at h
    obtain ⟨h1, h2⟩ := h
    subst h1
    exact ⟨id, id⟩
  | succ k ih =>
    intro s rng fuel s' rng' h hfresh
    unfold spawnLoop at h
    dsimp only at h
    rcases hpl : placeLoop s fuel rng with _ | xyr
    · rw [hpl] at h
      cases h
    · rcases xyr with ⟨xy, rng₁⟩
      rw [hpl] at h
      dsimp only at h
      obtain ⟨hempty, _, _, _⟩ := placeLoop_some s fuel rng xy rng₁ hpl
      set idStr := tag ++ toString (roleRefs s ρ).length with hid
      set s₁ : Env := { s with
          heap := setAgent s.heap s.nextRef ⟨idStr, ρ, xy, 1⟩,
          grid := setCell s.grid xy (Cell.agent s.nextRef),
          agents := s.agents ++ [s.nextRef],
          nextRef := s.nextRef + 1 } with hs₁
      have hfresh₁ : refsFresh s₁ := by
        intro r hr
        rcases List.mem_append.mp hr with hr | hr
        · exact Nat.lt_succ_of_lt (hfresh r hr)
        · have hre : r = s.nextRef := by simpa using hr
          rw [hre]
          exact Nat.lt_succ_self _
      obtain ⟨iw, ind⟩ := ih s₁ rng₁ fuel s' rng' h hfresh₁
      refine ⟨?_, ?_⟩
      · intro hw
        apply iw
        obtain ⟨w1, w2⟩ := hw
        have hxynw : xy ∉ s.walls := by
          intro hm
          have hc := (w1 xy).mp hm
          rw [hempty] at hc
          cases hc
        refine ⟨?_, ?_⟩
        · intro p
          show p ∈ s.walls ↔ setCell s.grid xy (Cell.agent s.nextRef) p = Cell.wall
          unfold setCell
          by_cases hp : p = xy
          · rw [if_pos hp]
            subst hp
            constructor
            · intro hm
              exact absurd hm hxynw
            · intro hc
              cases hc
          · rw [if_neg hp]
            exact w1 p
        · intro r hr
          show ((setAgent s.heap s.nextRef ⟨idStr, ρ, xy, 1⟩) r).pos ∉ s.walls
          unfold setAgent
          by_cases hreq : r = s.nextRef
          · rw [if_pos hreq]
            exact hxynw
          · rw [if_neg hreq]
            rcases List.mem_append.mp hr with hr | hr
            · exact w2 r hr
            · exact absurd (by simpa using hr) hreq
      · intro hnd
        apply ind
        show (s.agents ++ [s.nextRef]).Nodup
        rw [List.nodup_append]
        refine ⟨hnd, List.nodup_singleton _, ?_⟩
        intro a ha hb
        have hbe : a = s.nextRef := by simpa using hb
        exact Nat.lt_irrefl _ (hbe ▸ hfresh a ha)

theorem genNew_winv (pPred pPrey : ℚ) (s : Env) (fuel : Nat) (rng : Rng)
    (s' : Env) (rng' : Rng)
    (h : generateNewAgents pPred pPrey s fuel rng = some (s', rng'))
    (hfresh : refsFresh s) :
    (wallsOk s → wallsOk s') ∧ (s.agents.Nodup → s'.agents.Nodup) := by
  unfold generateNewAgents at h
  dsimp only at h
  rcases hsp : spawnLoop Role.predator "pr_"
      (if predCount s < s.maxNumPredators
        then max 1 (ceilQ (qMul (natToQ (predCount s)) pPred)) else 0) s rng fuel
    with _ | sr₁
  · rw [hsp] at h
    cases h
  · rcases sr₁ with ⟨s₁, rng₁⟩
    rw [hsp] at h
    dsimp only at h
    obtain ⟨p1, p2, p3, p4, p5, p6, p7⟩ :=
      spawnLoop_spec Role.predator "pr_" _ s rng fuel s₁ rng₁ hsp hfresh
    obtain ⟨pw, pn⟩ := spawnLoop_winv Role.predator "pr_" _ s rng fuel s₁ rng₁ hsp hfresh
    obtain ⟨qw, qn⟩ := spawnLoop_winv Role.prey "py_" _ s₁ rng₁ fuel s' rng' h p2
    exact ⟨fun hw => qw (pw hw), fun hnd => qn (pn hnd)⟩


/-! ### Wall preservation through step and reset -/

theorem step_walls (actions : String → Nat) (s : Env) (fuel : Nat) (rng : Rng)
    (obs : List (String × List (List (Nat × Nat × Nat × ℚ)))) (rw : List (String × Int))
    (dn : List (String × Bool)) (s' : Env) (rng' : Rng)
    (h : step actions s fuel rng = some (obs, rw, dn, s', rng'))
    (hnd : s.agents.Nodup) (hfresh : refsFresh s) (hw : wallsOk s) :
    s'.walls = s.walls ∧ wallsOk s' ∧ s'.agents.Nodup ∧ refsFresh s' := by
  unfold step at h
  dsimp only at h
  set rw₀ : List (String × Int) := dictInit s 0 with hrw₀
  set dn₀ : List (String × Bool) := dictInit s false with hdn₀
  set s₁ : Env := agentsMove actions s with hs₁
  set ht := hunting s₁ rw₀ dn₀ with hht
  set hg := predatorHunger ht.1 ht.2.2 with hhg
  rcases hga : generateNewAgents (mkRat 3 1000) (mkRat 6 1000) hg.1 fuel rng with _ | s₄r
  · rw [hga] at h
    cases h
  · rcases s₄r with ⟨s₄, rng₂⟩
    rw [hga] at h
    dsimp only at h
    rw [Option.some.injEq, Prod.mk.injEq] at h
    obtain ⟨hobs, h⟩ := h
    rw [Prod.mk.injEq] at h
    obtain ⟨hrw, h⟩ := h
    rw [Prod.mk.injEq] at h
    obtain ⟨hdn, h⟩ := h
    rw [Prod.mk.injEq] at h
    obtain ⟨hs', hrng'⟩ := h
    have hagents₁ : s₁.agents = s.agents :=
      (moveFold_static (newPositions s actions) s.agents _).2.1
    have hnext₁ : s₁.nextRef = s.nextRef :=
      (moveFold_static (newPositions s actions) s.agents _).2.2
    obtain ⟨hmw, hmwOk⟩ := agentsMove_walls actions s hnd hw
    rw [← hs₁] at hmw hmwOk
    have hnd₁ : s₁.agents.Nodup := by
      rw [hagents₁]
      exact hnd
    have hfresh₁ : refsFresh s₁ := by
      intro r hr
      rw [hnext₁]
      exact hfresh r (by rw [← hagents₁]; exact hr)
    have htu : ht = (roleRefs s₁ Role.predator).foldl huntOne (s₁, rw₀, dn₀) := rfl
    obtain ⟨t1, t2, t3, t4, t5, t6, t7⟩ := huntFold_spec (roleRefs s₁ Role.predator) s₁ rw₀ dn₀
    rw [← htu] at t1 t2 t3 t4 t5 t6 t7
    have hwOk₂ : wallsOk ht.1 := by
      have hx := huntFold_walls (roleRefs s₁ Role.predator) s₁ rw₀ dn₀ hmwOk
      rw [← htu] at hx
      exact hx
    have hwalls₂ : ht.1.walls = s.walls := t1.2.2.2.2.2.1.trans hmw
    have hnd₂ : ht.1.agents.Nodup := t4.nodup hnd₁
    have hfresh₂ : refsFresh ht.1 := by
      intro r hr
      rw [t2]
      exact hfresh₁ r (t4.mem hr)
    have hgu : hg = (roleRefs ht.1 Role.predator).foldl hungerOne (ht.1, ht.2.2) := rfl
    have hsnap : (roleRefs ht.1 Role.predator).Nodup := hnd₂.filter _
    have hsnapmem : ∀ p ∈ roleRefs ht.1 Role.predator, p ∈ ht.1.agents :=
      fun p hp => List.mem_of_mem_filter hp
    obtain ⟨u1, u2, u3, u4, u5, u6⟩ :=
      hungerFold_spec (roleRefs ht.1 Role.predator) ht.1 ht.2.2 hsnap hsnapmem
    rw [← hgu] at u1 u2 u3 u4 u5 u6
    have hwOk₃ : wallsOk hg.1 := by
      have hx := hungerFold_walls (roleRefs ht.1 Role.predator) ht.1 ht.2.2 hsnap hsnapmem hwOk₂
      rw [← hgu] at hx
      exact hx
    have hwalls₃ : hg.1.walls = s.walls := u1.2.2.2.2.2.1.trans hwalls₂
    have hnd₃ : hg.1.agents.Nodup := u4.nodup hnd₂
    have hfresh₃ : refsFresh hg.1 := by
      intro r hr
      rw [u2]
      exact hfresh₂ r (u4.mem hr)
    obtain ⟨g1, g2, g3, g4, g5, g6⟩ :=
      generateNewAgents_spec (mkRat 3 1000) (mkRat 6 1000) hg.1 fuel rng s₄ rng₂ hga hfresh₃
    obtain ⟨gw, gn⟩ := genNew_winv (mkRat 3 1000) (mkRat 6 1000) hg.1 fuel rng s₄ rng₂ hga hfresh₃
    subst hs'
    exact ⟨g1.2.2.2.2.2.1.trans hwalls₃, gw hwOk₃, gn hnd₃, g2⟩

theorem placeWalls_winv : ∀ (k : Nat) (s : Env) (rng : Rng) (fuel : Nat) (s' : Env) (rng' : Rng),
    placeWalls k s rng fuel = some (s', rng') →
    wallsOk s → s.agents = [] →
    wallsOk s' ∧ s'.agents = [] := by
  intro k
  induction k with
  | zero =>
    intro s rng fuel s' rng' h hw hag
    unfold placeWalls at h
    rw [Option.some.injEq, Prod.mk.injEq] at h
    obtain ⟨h1, h2⟩ := h
    subst h1
    exact ⟨hw, hag⟩
  | succ k ih =>
    intro s rng fuel s' rng' h hw hag
    unfold placeWalls at h
    rcases hpl : placeLoop s fuel rng with _ | xyr
    · rw [hpl] at h
      cases h
    · rcases xyr with ⟨xy, rng₁⟩
      rw [hpl] at h
      dsimp only at h
      obtain ⟨hempty, _, _, _⟩ := placeLoop_some s fuel rng xy rng₁ hpl
      have hxynw : xy ∉ s.walls := by
        intro hm
        have hc := (hw.1 xy).mp hm
        rw [hempty] at hc
        cases hc
      refine ih _ _ _ _ _ h ⟨?_, ?_⟩ hag
      · intro p
        show p ∈ s.walls ++ [xy] ↔ setCell s.grid xy Cell.wall p = Cell.wall
        unfold setCell
        by_cases hp : p = xy
        · rw [if_pos hp]
          subst hp
          simp
        · rw [if_neg hp]
          rw [List.mem_append]
          constructor
          · intro hm
            rcases hm with hm | hm
            · exact (hw.1 p).mp hm
            · exact absurd (by simpa using hm) hp
          · intro hm
            exact Or.inl ((hw.1 p).mpr hm)
      · intro r hr
        have hr' : r ∈ s.agents := hr
        rw [hag] at hr'
        cases hr'

theorem placeInit_winv (ρ : Role) (tag : String) : ∀ (k i : Nat) (s : Env) (rng : Rng)
    (fuel : Nat) (s' : Env) (rng' : Rng),
    placeInitAgents ρ tag i k s rng fuel = some (s', rng') → refsFresh s →
    (wallsOk s → wallsOk s') ∧ (s.agents.Nodup → s'.agents.Nodup) ∧ refsFresh s' := by
  intro k
  induction k with
  | zero =>
    intro i s rng fuel s' rng' h hfresh
    unfold placeInitAgents at h
    rw [Option.some.injEq, Prod.mk.injEq] at h
    obtain ⟨h1, h2⟩ := h
    subst h1
    exact ⟨id, id, hfresh⟩
  | succ k ih =>
    intro i s rng fuel s' rng' h hfresh
    unfold placeInitAgents at h
    dsimp only at h
    rcases hpl : placeLoop s fuel rng with _ | xyr
    · rw [hpl] at h
      cases h
    · rcases xyr with ⟨xy, rng₁⟩
      rw [hpl] at h
      dsimp only at h
      obtain ⟨hempty, _, _, _⟩ := placeLoop_some s fuel rng xy rng₁ hpl
      set s₂ : Env := { s with
          heap := setAgent s.heap s.nextRef ⟨tag ++ toString i, ρ, xy, 1⟩,
          grid := setCell s.grid xy (Cell.agent s.nextRef),
          agents := s.agents ++ [s.nextRef],
          nextRef := s.nextRef + 1 } with hs₂
      have hfresh₂ : refsFresh s₂ := by
        intro r hr
        rcases List.mem_append.mp hr with hr | hr
        · exact Nat.lt_succ_of_lt (hfresh r hr)
        · have hre : r = s.nextRef := by simpa using hr
          rw [hre]
          exact Nat.lt_succ_self _
      obtain ⟨iw, ind, ifr⟩ := ih (i + 1) s₂ rng₁ fuel s' rng' h hfresh₂
      refine ⟨?_, ?_, ifr⟩
      · intro hw
        apply iw
        obtain ⟨w1, w2⟩ := hw
        have hxynw : xy ∉ s.walls := by
          intro hm
          have hc := (w1 xy).mp hm
          rw [hempty] at hc
          cases hc
        refine ⟨?_, ?_⟩
        · intro p
          show p ∈ s.walls ↔ setCell s.grid xy (Cell.agent s.nextRef) p = Cell.wall
          unfold setCell
          by_cases hp : p = xy
          · rw [if_pos hp]
            subst hp
            constructor
            · intro hm
              exact absurd hm hxynw
            · intro hc
              cases hc
          · rw [if_neg hp]
            exact w1 p
        · intro r hr
          show ((setAgent s.heap s.nextRef ⟨tag ++ toString i, ρ, xy, 1⟩) r).pos ∉ s.walls
          unfold setAgent
          by_cases hreq : r = s.nextRef
          · rw [if_pos hreq]
            exact hxynw
          · rw [if_neg hreq]
            rcases List.mem_append.mp hr with hr | hr
            · exact w2 r hr
            · exact absurd (by simpa using hr) hreq
      · intro hnd
        apply ind
        show (s.agents ++ [s.nextRef]).Nodup
        rw [List.nodup_append]
        refine ⟨hnd, List.nodup_singleton _, ?_⟩
        intro a ha hb
        have hbe : a = s.nextRef := by simpa using hb
        exact Nat.lt_irrefl _ (hbe ▸ hfresh a ha)

theorem reset_winv (s : Env) (fuel : Nat) (rng : Rng) (s₀ : Env) (rng₀ : Rng)
    (h : reset s fuel rng = some (s₀, rng₀)) (hag : s.agents = []) :
    wallsOk s₀ ∧ s₀.agents.Nodup ∧ refsFresh s₀ := by
  unfold reset at h
  dsimp only at h
  rcases hpw : placeWalls s.numWalls { s with grid := fun _ => Cell.empty, walls := [] }
      rng fuel with _ | s₁r
  · rw [hpw] at h
    cases h
  · rcases s₁r with ⟨s₁, rng₁⟩
    rw [hpw] at h
    dsimp only at h
    have hw0 : wallsOk { s with grid := fun _ => Cell.empty, walls := [] } := by
      constructor
      · intro p
        constructor
        · intro hm
          cases hm
        · intro hc
          cases hc
      · intro r hr
        have hr' : r ∈ s.agents := hr
        rw [hag] at hr'
        cases hr'
    obtain ⟨hw1, hag1⟩ := placeWalls_winv s.numWalls _ rng fuel s₁ rng₁ hpw hw0 hag
    rcases hpa : placeInitAgents Role.predator "pr_" 0 s.numPredators s₁ rng₁ fuel with _ | s₂r
    · rw [hpa] at h
      cases h
    · rcases s₂r with ⟨s₂, rng₂⟩
      rw [hpa] at h
      dsimp only at h
      have hfresh₁ : refsFresh s₁ := by
        intro r hr
        rw [hag1] at hr
        cases hr
      obtain ⟨pw, pn, pf⟩ :=
        placeInit_winv Role.predator "pr_" s.numPredators 0 s₁ rng₁ fuel s₂ rng₂ hpa hfresh₁
      obtain ⟨qw, qn, qf⟩ :=
        placeInit_winv Role.prey "py_" s.numPrey 0 s₂ rng₂ fuel s₀ rng₀ h pf
      refine ⟨qw (pw hw1), qn (pn ?_), qf⟩
      rw [hag1]
      exact List.nodup_nil

theorem stepN_winv : ∀ (n : Nat) (acts : Nat → String → Nat) (fuel : Nat) (s : Env) (rng : Rng),
    s.agents.Nodup → refsFresh s → wallsOk s →
    optionHolds (fun t => t.1.walls = s.walls ∧ wallsOk t.1) (stepN acts fuel n s rng) := by
  intro n
  induction n with
  | zero =>
    intro acts fuel s rng hnd hfresh hw
    exact ⟨rfl, hw⟩
  | succ n ih =>
    intro acts fuel s rng hnd hfresh hw
    unfold stepN
    rcases hst : step (acts 0) s fuel rng with _ | r
    · exact trivial
    · rcases r with ⟨obs, rw, dn, s', rng'⟩
      dsimp only
      obtain ⟨w1, w2, w3, w4⟩ := step_walls (acts 0) s fuel rng obs rw dn s' rng' hst hnd hfresh hw
      have hnext := ih (fun i => acts (i + 1)) fuel s' rng' w3 w4 w2
      rcases hsn : stepN (fun i => acts (i + 1)) fuel n s' rng' with _ | t
      · exact trivial
      · rw [hsn] at hnext
        exact ⟨hnext.1.trans w1, hnext.2⟩

/-- C8: the wall positions fixed by reset are unchanged by any number
of subsequent steps: whenever reset of a fresh environment succeeds
and n further steps succeed, the stepped state carries the same stored
wall list and exactly the same wall cells as the reset state. -/
theorem claim_C8 (gs : Nat × Nat) (npred nprey nw scope : Nat) (hg : ℚ)
    (fuel : Nat) (rng : Rng) (acts : Nat → String → Nat) (n : Nat) :
    optionHolds (fun t =>
      optionHolds (fun t' =>
        t'.1.walls = t.1.walls ∧ ∀ p, (t'.1.grid p = Cell.wall ↔ t.1.grid p = Cell.wall))
        (stepN acts fuel n t.1 t.2))
      (reset (mkEnv gs npred nprey nw scope hg) fuel rng) := by
  rcases hre : reset (mkEnv gs npred nprey nw scope hg) fuel rng with _ | t
  · exact trivial
  · rcases t with ⟨s₀, rng₀⟩
    obtain ⟨hw0, hnd0, hfr0⟩ :=
      reset_winv (mkEnv gs npred nprey nw scope hg) fuel rng s₀ rng₀ hre rfl
    have hsn := stepN_winv n acts fuel s₀ rng₀ hnd0 hfr0 hw0
    show optionHolds (fun t' =>
        t'.1.walls = s₀.walls ∧ ∀ p, (t'.1.grid p = Cell.wall ↔ s₀.grid p = Cell.wall))
      (stepN acts fuel n s₀ rng₀)
    rcases hsnn : stepN acts fuel n s₀ rng₀ with _ | t'
    · exact trivial
    · rw [hsnn] at hsn
      refine ⟨hsn.1, ?_⟩
      intro p
      constructor
      · intro hc
        exact (hw0.1 p).mp (hsn.1 ▸ (hsn.2.1 p).mpr hc)
      · intro hc
        refine (hsn.2.1 p).mp ?_
        rw [hsn.1]
        exact (hw0.1 p).mpr hc


end PredatorPrey
